import Mathlib

/-!
Verification of the position-based segmentation core of the
ff_poc_elevenlabs_flowreader extension: a shallow embedding of the
validation, semantic-rule, remapping and retry logic found in
`src/background.js` and `src/prompts.js`, together with theorems about
the properties the specification states for them.

Conventions of the embedding:
* JS numbers that are used as integer positions are modelled as `Int`
  (the code only ever produces and compares integer position values).
* A JS field that can be `undefined` is modelled as an `Option`.
* JS string operations (`split(/\s+/)`, `replace(/[.,;:!?'"]/g,'')`,
  `trim`, `startsWith`, `endsWith`, `slice`, `join`) are modelled by
  executable Lean functions with the same behaviour on the values the
  code manipulates.
* The stable `Array.prototype.sort` with comparator
  `(a,b) => a.start_c - b.start_c` is modelled by the stable
  insertion sort on the same key.
-/

/-- A word as produced by the DOM layer: a position identifier `c` and its
text (`{c, text}` objects handed to `handlePositionBasedPartitioning`). -/
structure Word where
  c : Int
  text : String
deriving DecidableEq, Repr

/-- A candidate segmentation block after index remapping, as consumed by
`validateLLMResponse` and the semantic checks: `start_c`/`end_c` may be
absent (JS `undefined`), `original` is always a string after conversion,
`translation` may be absent or empty. -/
structure Block where
  start_c : Option Int
  end_c : Option Int
  original : String
  translation : Option String
deriving DecidableEq, Repr

/-- A semantic violation as produced by the rule battery in
`src/prompts.js` (`{type, message, severity, blockIndex, suggestion}`). -/
structure Violation where
  type : String
  message : String
  severity : String
  blockIndex : Nat
  suggestion : String
deriving DecidableEq, Repr

/-- The apostrophe character, written by code point to keep source text
free of bare quote characters. -/
def apoC : Char := Char.ofNat 39

/-- The double-quote character, written by code point. -/
def qtC : Char := Char.ofNat 34

/-- Apostrophe as a one-character string. -/
def apoS : String := String.mk [apoC]

/-- Double quote as a one-character string. -/
def qtS : String := String.mk [qtC]

/-- The punctuation characters of the regex class `[.,;:!?'"]` used by
the checkers in `src/prompts.js`. -/
def punctChars : List Char := ['.', ',', ';', ':', '!', '?', apoC, qtC]

/-- JS `word.replace(/[.,;:!?'"]/g, '')`: delete every punctuation
character of the class. -/
def stripPunct (s : String) : String :=
  String.mk (s.data.filter (fun c => !punctChars.contains c))

/-- JS `s.trim()`: drop whitespace from both ends. -/
def trimStr (s : String) : String :=
  String.mk (((s.data.dropWhile Char.isWhitespace).reverse.dropWhile
    Char.isWhitespace).reverse)

/-- JS `s.slice(n)` on the strings the code manipulates (all characters
in the basic plane): drop the first `n` characters. -/
def dropStr (s : String) (n : Nat) : String := String.mk (s.data.drop n)

/-- JS `s.startsWith(pre)`. -/
def startsWithStr (s pre : String) : Bool := pre.data.isPrefixOf s.data

/-- JS `s.endsWith(suf)`. -/
def endsWithStr (s suf : String) : Bool := suf.data.isSuffixOf s.data

/-- Tokeniser underlying `wordsOf`: split a character list at whitespace
runs, accumulating the current (reversed) token. -/
def splitWsTokens : List Char → List Char → List String
  | [], acc => if acc.isEmpty then [] else [String.mk acc.reverse]
  | c :: t, acc =>
    if c.isWhitespace then
      if acc.isEmpty then splitWsTokens t []
      else String.mk acc.reverse :: splitWsTokens t []
    else splitWsTokens t (c :: acc)

/-- The maximal non-whitespace runs of a string: `s.split(/\s+/)` with
empty fragments removed, i.e. the common
`original.split(/\s+/).filter(w => w.length > 0)` idiom of the checkers. -/
def wordsOf (s : String) : List String := splitWsTokens s.data []

/-- First element of JS `s.split(/\s+/)`: the empty string when `s` is
empty or starts with whitespace, otherwise the first maximal
non-whitespace run. -/
def firstSplitWs (s : String) : String :=
  match s.data with
  | [] => ""
  | c :: _ => if c.isWhitespace then "" else (wordsOf s).headD ""

/-- Lower-casing as JS `toLowerCase` acts on the characters the extension
deals with: ASCII letters plus the accented Latin letters of French. -/
def jsToLowerChar (c : Char) : Char :=
  if c = 'À' then 'à' else if c = 'Â' then 'â' else if c = 'Ä' then 'ä'
  else if c = 'Ç' then 'ç' else if c = 'É' then 'é' else if c = 'È' then 'è'
  else if c = 'Ê' then 'ê' else if c = 'Ë' then 'ë' else if c = 'Î' then 'î'
  else if c = 'Ï' then 'ï' else if c = 'Ô' then 'ô' else if c = 'Ö' then 'ö'
  else if c = 'Ù' then 'ù' else if c = 'Û' then 'û' else if c = 'Ü' then 'ü'
  else if c = 'Œ' then 'œ' else c.toLower

/-- JS `s.toLowerCase()` restricted to the character repertoire above. -/
def jsToLower (s : String) : String := String.mk (s.data.map jsToLowerChar)

/-- Helper for `collapseWs`: copy characters, emitting a single space for
every maximal whitespace run (the flag records whether the previous
character was whitespace). -/
def collapseWsAux : Bool → List Char → List Char
  | _, [] => []
  | prev, c :: t =>
    if c.isWhitespace then
      if prev then collapseWsAux true t else ' ' :: collapseWsAux true t
    else c :: collapseWsAux false t

/-- JS `s.replace(/\s+/g, ' ')`: every maximal whitespace run becomes a
single space (leading/trailing runs included, no trimming). -/
def collapseWs (s : String) : String := String.mk (collapseWsAux false s.data)

/-- JS `s.replace(/^[.,;:!?'"]+\s*/, '')`: when the string starts with a
punctuation character, drop the leading punctuation run and any
whitespace that follows it; otherwise leave the string unchanged. -/
def stripLeadPunctWs (s : String) : String :=
  match s.data with
  | [] => s
  | c :: _ =>
    if punctChars.contains c then
      String.mk (((s.data.dropWhile (fun d => punctChars.contains d)).dropWhile
        (fun d => d.isWhitespace)))
    else s

/-- The character class of the orphan-punctuation regex
`/^[.,;:!?'"«»—–-]+$/` in `checkOrphanPunctuation`. -/
def orphanPunctChars : List Char :=
  punctChars ++ ['«', '»', Char.ofNat 0x2014, Char.ofNat 0x2013, '-']

/-- Whether a string matches `/^[.,;:!?'"«»—–-]+$/`: non-empty and made
exclusively of those characters. -/
def isOrphanPunct (s : String) : Bool :=
  s ≠ "" && s.data.all (fun c => orphanPunctChars.contains c)

/-- Whether a string matches `/^[.,;:!?'"]+$/` (used on the remainder in
`checkFixedExpressionBuried`). -/
def isOnlyPunct (s : String) : Bool :=
  s ≠ "" && s.data.all (fun c => punctChars.contains c)

/-- `LINKING_VERBS` from `src/prompts.js`: common French linking verbs
(copula/state verbs), conjugated forms included. -/
def LINKING_VERBS : List String :=
  ["est", "sont", "était", "étaient", "sera", "seront", "été", "étant",
   "suis", "es", "sommes", "êtes", "serai", "seras", "serez", "serais",
   "serait", "seraient", "serions", "seriez", "soit", "soient", "fût",
   "reste", "restes", "restent", "restait", "restaient", "restera", "resteront",
   "restée", "resté", "restés", "restées",
   "devient", "deviennent", "devenait", "devenaient", "deviendra", "deviendront",
   "devenu", "devenue", "devenus", "devenues",
   "semble", "sembles", "semblent", "semblait", "semblaient", "semblera",
   "paraît", "parait", "paraissent", "paraissait", "paraîtra",
   "demeure", "demeurent", "demeurait", "demeuraient"]

/-- `FIXED_EXPRESSIONS` from `src/prompts.js`: multi-word fixed
expressions that should be isolated as single blocks. -/
def FIXED_EXPRESSIONS : List String :=
  ["face à", "en raison de", "grâce à", "quant à", "à cause de",
   "au lieu de", "par rapport à", "en dépit de",
   "à l" ++ apoS ++ "égard de", "au sein de", "en vue de", "à travers",
   "au-delà de", "en dehors de", "à partir de", "au cours de",
   "en fonction de", "à la suite de"]

/-- `DISCOURSE_MARKERS` from `src/prompts.js`: discourse markers that
should be isolated. -/
def DISCOURSE_MARKERS : List String :=
  ["cependant", "néanmoins", "toutefois", "par ailleurs", "en effet",
   "en revanche", "par contre", "de plus", "en outre", "ainsi", "donc",
   "pourtant", "d" ++ apoS ++ "ailleurs", "autrement dit", "en somme", "bref"]

/-- `CIRCUMSTANTIAL_PREPOSITIONS` from `src/prompts.js`. -/
def CIRCUMSTANTIAL_PREPOSITIONS : List String :=
  ["dès", "depuis", "pendant", "après", "avant", "lors de", "durant",
   "dans", "entre", "vers", "sous", "sur", "derrière", "devant",
   "pour", "afin de", "avec", "sans", "selon", "malgré",
   "en", "par"]

/-- `startsWithVerb` from `src/prompts.js`: heuristic check, applied to
the first whitespace-separated word (punctuation-stripped, lower-cased)
of the text, against auxiliary-verb indicators and conjugation endings. -/
def startsWithVerb (text : String) : Bool :=
  if text = "" then false
  else
    let firstWord := stripPunct (firstSplitWs (jsToLower text))
    let verbIndicators := ["a", "ont", "va", "vont", "fait", "peut", "veut", "doit"]
    let verbEndings := ["er", "ir", "re", "é", "ée", "és", "ées", "ant"]
    if verbIndicators.contains firstWord then true
    else verbEndings.any (fun ending => endsWithStr firstWord ending && firstWord.length > 3)

/-- Helper of `checkLinkingVerbIsolation`: the loop body for block index
`i` with the current block and its successor visible; the loop in the
source runs only while `i < blocks.length - 1`. -/
def checkLinkingVerbIsolationAux : Nat → List Block → List Violation
  | _, [] => []
  | _, [_] => []
  | i, b :: nb :: t =>
    let here :=
      let original := b.original
      let ws := wordsOf (jsToLower original)
      if ws = [] then []
      else
        let lastWord := stripPunct (ws.getLastD "")
        if LINKING_VERBS.contains lastWord && ws.length ≤ 2 then
          if !startsWithVerb nb.original then
            [{ type := "linking_verb_isolated",
               message := "Linking verb " ++ qtS ++ b.original ++ qtS ++
                 " should merge with " ++ qtS ++ nb.original ++ qtS,
               severity := "error",
               blockIndex := i,
               suggestion := collapseWs (b.original ++ " " ++ nb.original) }]
          else []
        else []
    here ++ checkLinkingVerbIsolationAux (i + 1) (nb :: t)

/-- `checkLinkingVerbIsolation` from `src/prompts.js`: flags a short
(≤ 2 words) block ending in a linking verb whose successor block does not
start with a verb-like token. -/
def checkLinkingVerbIsolation (blocks : List Block) : List Violation :=
  checkLinkingVerbIsolationAux 0 blocks

/-- The inner expression loop of `checkFixedExpressionBuried` for one
block (index `i`): for every expression that prefixes the lower-cased
text, flag it when significant non-punctuation content remains. -/
def checkFixedExpressionBuriedBlock (i : Nat) (b : Block) : List Violation :=
  let original := jsToLower b.original
  FIXED_EXPRESSIONS.flatMap (fun expr =>
    if startsWithStr original expr then
      let remainder := trimStr (dropStr original expr.length)
      if remainder.length > 3 && !isOnlyPunct remainder then
        [{ type := "fixed_expression_buried",
           message := qtS ++ expr ++ qtS ++ " should be isolated, found buried in " ++
             qtS ++ b.original ++ qtS,
           severity := "warning",
           blockIndex := i,
           suggestion := "Split into: [" ++ expr ++ "] [" ++ remainder ++ "]" }]
      else []
    else [])

/-- `checkFixedExpressionBuried` from `src/prompts.js`. -/
def checkFixedExpressionBuried (blocks : List Block) : List Violation :=
  (blocks.enum).flatMap (fun p => checkFixedExpressionBuriedBlock p.1 p.2)

/-- The loop body of `checkDiscourseMarkerAbsorbed` for one block. -/
def checkDiscourseMarkerAbsorbedBlock (i : Nat) (b : Block) : List Violation :=
  let original := jsToLower b.original
  let ws := wordsOf original
  if ws.length ≤ 1 then []
  else
    let firstWord := stripPunct (ws.headD "")
    if DISCOURSE_MARKERS.contains firstWord then
      let withoutMarker := stripLeadPunctWs (String.intercalate " " (ws.drop 1))
      if withoutMarker.length > 0 then
        [{ type := "discourse_marker_absorbed",
           message := "Discourse marker " ++ qtS ++ firstWord ++ qtS ++
             " should be isolated, found in " ++ qtS ++ b.original ++ qtS,
           severity := "warning",
           blockIndex := i,
           suggestion := "Split into: [" ++ firstWord ++ ",] [" ++ withoutMarker ++ "]" }]
      else []
    else []

/-- `checkDiscourseMarkerAbsorbed` from `src/prompts.js`. -/
def checkDiscourseMarkerAbsorbed (blocks : List Block) : List Violation :=
  (blocks.enum).flatMap (fun p => checkDiscourseMarkerAbsorbedBlock p.1 p.2)

/-- The loop body of `checkOrphanPunctuation` for one block. -/
def checkOrphanPunctuationBlock (i : Nat) (b : Block) : List Violation :=
  let original := trimStr b.original
  if isOrphanPunct original then
    [{ type := "orphan_punctuation",
       message := "Punctuation " ++ qtS ++ original ++ qtS ++
         " should attach to preceding block",
       severity := "error",
       blockIndex := i,
       suggestion := if i > 0 then "Merge with previous block" else "Remove or merge" }]
  else []

/-- `checkOrphanPunctuation` from `src/prompts.js`. -/
def checkOrphanPunctuation (blocks : List Block) : List Violation :=
  (blocks.enum).flatMap (fun p => checkOrphanPunctuationBlock p.1 p.2)

/-- The inner `j` loop of `checkCircumstantialPhraseBuried`, scanning
positions `j, j+1, ...` strictly below `words.length - 1` for a buried
single- or two-word circumstantial preposition; stops (`break`) after the
first reported violation.  `origText` is the block text used in the
message; `j` counts from 1 on the first call. -/
def circumstantialScan (origText : String) (i : Nat) (ws : List String)
    (j : Nat) : List Violation :=
  if h : j + 1 < ws.length then
    let word := stripPunct (ws.getD j "")
    let beforePrep := String.intercalate " " (ws.take j)
    let fromPrep := String.intercalate " " (ws.drop j)
    if CIRCUMSTANTIAL_PREPOSITIONS.contains word &&
        beforePrep.length > 3 && fromPrep.length > 5 then
      [{ type := "circumstantial_phrase_buried",
         message := "Circumstantial phrase starting with " ++ qtS ++ word ++ qtS ++
           " should be isolated in " ++ qtS ++ origText ++ qtS,
         severity := "warning",
         blockIndex := i,
         suggestion := "Split into: [" ++ beforePrep ++ "] [" ++ fromPrep ++ "]" }]
    else
      let twoWords := word ++ " " ++ stripPunct (ws.getD (j + 1) "")
      if CIRCUMSTANTIAL_PREPOSITIONS.contains twoWords &&
          beforePrep.length > 3 && fromPrep.length > 8 then
        [{ type := "circumstantial_phrase_buried",
           message := "Circumstantial phrase starting with " ++ qtS ++ twoWords ++ qtS ++
             " should be isolated in " ++ qtS ++ origText ++ qtS,
           severity := "warning",
           blockIndex := i,
           suggestion := "Split into: [" ++ beforePrep ++ "] [" ++ fromPrep ++ "]" }]
      else circumstantialScan origText i ws (j + 1)
  else []
termination_by ws.length - j
decreasing_by omega

/-- The loop body of `checkCircumstantialPhraseBuried` for one block:
blocks of at most 3 words are skipped, otherwise the scan starts at word
position 1. -/
def checkCircumstantialPhraseBuriedBlock (i : Nat) (b : Block) : List Violation :=
  let original := jsToLower b.original
  let ws := wordsOf original
  if ws.length ≤ 3 then []
  else circumstantialScan b.original i ws 1

/-- `checkCircumstantialPhraseBuried` from `src/prompts.js`. -/
def checkCircumstantialPhraseBuried (blocks : List Block) : List Violation :=
  (blocks.enum).flatMap (fun p => checkCircumstantialPhraseBuriedBlock p.1 p.2)

/-- Result of `validateSemantics`. -/
structure SemResult where
  valid : Bool
  violations : List Violation
  shouldRetry : Bool
deriving DecidableEq, Repr

/-- `validateSemantics` from `src/prompts.js`: run the five checkers in
order, collect all violations, and aggregate: `valid` iff no
error-severity violation, `shouldRetry` iff an error exists or a warning
exists together with at least two violations in total.  The `words`
argument is accepted but unused, as in the source. -/
def validateSemantics (blocks : List Block) (words : List Word) : SemResult :=
  let violations :=
    checkLinkingVerbIsolation blocks ++
    checkFixedExpressionBuried blocks ++
    checkDiscourseMarkerAbsorbed blocks ++
    checkOrphanPunctuation blocks ++
    checkCircumstantialPhraseBuried blocks
  let hasErrors := violations.any (fun v => v.severity == "error")
  let hasWarnings := violations.any (fun v => v.severity == "warning")
  { valid := !hasErrors,
    violations := violations,
    shouldRetry := hasErrors || (hasWarnings && decide (violations.length ≥ 2)) }

/-- One entry of `RETRY_CONFIG`: escalation parameters for a retry
attempt (the temperature, a JS float, is modelled as a rational). -/
structure RetryCfg where
  temperature : Rat
  delay : Nat
deriving DecidableEq, Repr

/-- `RETRY_CONFIG` from `src/prompts.js`: temperature escalation with
per-attempt delays. -/
def RETRY_CONFIG : List RetryCfg :=
  [⟨2/10, 0⟩, ⟨4/10, 1000⟩, ⟨6/10, 2000⟩]

/-- `getRetryConfig` from `src/prompts.js`: 1-indexed lookup, clamped to
the last entry. -/
def getRetryConfig (attempt : Nat) : RetryCfg :=
  RETRY_CONFIG.getD (min (attempt - 1) (RETRY_CONFIG.length - 1)) ⟨2/10, 0⟩

/-- `getMaxRetries` from `src/prompts.js`. -/
def getMaxRetries : Nat := RETRY_CONFIG.length

/-- A parsed LLM response after block conversion, as validated by
`validateLLMResponse`: the `blocks` field may be missing entirely. -/
structure Parsed where
  blocks : Option (List Block)
deriving DecidableEq, Repr

/-- A raw block as parsed from the LLM JSON before conversion: either the
compact index pair `s`/`e` or the legacy `start_c`/`end_c` pair, possibly
an `original` text, and the short `t` or long `translation` key. -/
structure RawBlock where
  s : Option Int
  e : Option Int
  start_c : Option Int
  end_c : Option Int
  original : Option String
  t : Option String
  translation : Option String
deriving DecidableEq, Repr

/-- A raw parsed LLM response before conversion. -/
structure RawParsed where
  blocks : Option (List RawBlock)
deriving DecidableEq, Repr

/-- The set of valid `c` values built by `validateLLMResponse`
(`words.map(w => w.c)` collected into a `Set`). -/
def cValues (words : List Word) : List Int := words.map (fun w => w.c)

/-- `start_c` with the default used for sort keys (only relevant once all
per-block checks established the field is present). -/
def startD (b : Block) : Int := b.start_c.getD 0

/-- `end_c` with a default, cf. `startD`. -/
def endD (b : Block) : Int := b.end_c.getD 0

/-- The stable sort `[...blocks].sort((a,b) => a.start_c - b.start_c)`. -/
def sortByStart (bs : List Block) : List Block :=
  bs.insertionSort (fun a b => startD a ≤ startD b)

/-- The stable sort `words.slice().sort((a,b) => a.c - b.c)`. -/
def sortWordsByC (ws : List Word) : List Word :=
  ws.insertionSort (fun a b => a.c ≤ b.c)

/-- The per-block checks of `validateLLMResponse` (step 4), in source
order: presence of numeric `start_c`/`end_c`, then a non-empty string
`translation`, then membership of `start_c` and `end_c` in the word map,
then `start_c ≤ end_c`.  Returns the first failure's error message. -/
def checkBlock (i : Nat) (b : Block) (cvals : List Int) : Option String :=
  match b.start_c, b.end_c with
  | some s, some e =>
    if (match b.translation with | none => true | some t => t = "") then
      some ("Block " ++ toString i ++ ": missing or invalid translation")
    else if !cvals.contains s then
      some ("Block " ++ toString i ++ ": start_c " ++ toString s ++ " not in word map")
    else if !cvals.contains e then
      some ("Block " ++ toString i ++ ": end_c " ++ toString e ++ " not in word map")
    else if e < s then
      some ("Block " ++ toString i ++ ": start_c > end_c")
    else none
  | _, _ => some ("Block " ++ toString i ++ ": missing start_c or end_c")

/-- The block loop of `validateLLMResponse`: first failing block wins. -/
def checkBlocksFrom : Nat → List Block → List Int → Option String
  | _, [], _ => none
  | i, b :: t, cv =>
    match checkBlock i b cv with
    | some m => some m
    | none => checkBlocksFrom (i + 1) t cv

/-- The overlap loop of `validateLLMResponse` (step 5) over the sorted
block list: fails when a block starts at or before the previous block's
end; `i` is the index of the second block of the pair, starting at 1. -/
def checkOverlapFrom : Nat → List Block → Option String
  | i, a :: b :: t =>
    if startD b ≤ endD a then
      some ("Blocks " ++ toString (i - 1) ++ " and " ++ toString i ++ " overlap")
    else checkOverlapFrom (i + 1) (b :: t)
  | _, _ => none

/-- Result shape of `validateLLMResponse`. -/
structure VResult where
  valid : Bool
  error : Option String
deriving DecidableEq, Repr

/-- `validateLLMResponse` from `src/background.js`: structural validation
of a parsed response against the word list, returning the first violation
found, in the fixed order of the source. -/
def validateLLMResponse (parsed : Parsed) (words : List Word) : VResult :=
  match parsed.blocks with
  | none => ⟨false, some "Missing or invalid blocks array"⟩
  | some bs =>
    if bs = [] then ⟨false, some "Empty blocks array"⟩
    else
      match checkBlocksFrom 0 bs (cValues words) with
      | some m => ⟨false, some m⟩
      | none =>
        match checkOverlapFrom 1 (sortByStart bs) with
        | some m => ⟨false, some m⟩
        | none => ⟨true, none⟩

/-- The cursor update of `validateBlockCoverage`: find the word whose `c`
equals the block's `end_c`; when it exists and is not the last word, the
new expected position is the following word's `c`. -/
def nextExpectedC (sw : List Word) (endc : Option Int) (expected : Int) : Int :=
  match sw.findIdx? (fun w => endc == some w.c) with
  | some j => if j + 1 < sw.length then (sw.getD (j + 1) ⟨0, ""⟩).c else expected
  | none => expected

/-- The block loop of `validateBlockCoverage`, collecting the gap
warnings it logs. -/
def coverageScan : List Block → List Word → Int → List String
  | [], _, _ => []
  | b :: t, sw, expected =>
    let here :=
      if b.start_c ≠ some expected then
        ["Gap detected - expected start_c " ++ toString expected ++ ", got " ++
          (match b.start_c with | some v => toString v | none => "undefined")]
      else []
    here ++ coverageScan t sw (nextExpectedC sw b.end_c expected)

/-- `validateBlockCoverage` from `src/background.js`: diagnostic only; it
sorts copies of its inputs and reports the gap warnings it would log. -/
def validateBlockCoverage (blocks : List Block) (words : List Word) : List String :=
  if blocks = [] then []
  else
    let sortedBlocks := sortByStart blocks
    let sortedWords := sortWordsByC words
    let firstC := match sortedWords with | [] => 0 | w :: _ => w.c
    coverageScan sortedBlocks sortedWords firstC

/-- The `indexToCMap` built by `handlePositionBasedPartitioning`: index
`k` maps to `words[k].c` exactly for the indices `0..N-1` of the word
array, and is absent for every other key. -/
def indexToC (words : List Word) (k : Int) : Option Int :=
  if h : 0 ≤ k ∧ k.toNat < words.length then
    some (words.get ⟨k.toNat, h.2⟩).c
  else none

/-- An entry of the simplified word array sent to the LLM (`{i, w}`). -/
structure SimpWord where
  i : Nat
  w : String
deriving DecidableEq, Repr

/-- The simplified word array `words.map((word, index) => ({i: index, w:
word.text}))`. -/
def simplifiedWords (words : List Word) : List SimpWord :=
  words.enum.map (fun p => ⟨p.1, p.2.text⟩)

/-- `indexToCMap[idx] !== undefined ? indexToCMap[idx] : idx`: remap an
index through the table with fall-through of unknown raw values. -/
def mapIndex (words : List Word) (idx : Option Int) : Option Int :=
  match idx with
  | none => none
  | some k => match indexToC words k with | some c => some c | none => some k

/-- The inclusive integer range `lo..hi` (empty when `lo > hi`), as
traversed by the `for (let idx = startIndex; idx <= endIndex; idx++)`
reconstruction loop. -/
def intRangeIncl (lo hi : Int) : List Int :=
  if lo ≤ hi then (List.range (hi - lo + 1).toNat).map (fun t => lo + (t : Int)) else []

/-- Reconstruction of a block's original text from the word array: the
texts of the words whose index falls in `[lo, hi]` (skipping indices
outside the array), space-joined. -/
def reconstructOriginal (words : List Word) (lo hi : Int) : String :=
  String.intercalate " "
    ((intRangeIncl lo hi).filterMap (fun idx =>
      if h : 0 ≤ idx ∧ idx.toNat < words.length then
        some (words.get ⟨idx.toNat, h.2⟩).text
      else none))

/-- The block conversion of `handlePositionBasedPartitioning`: prefer the
compact `s`/`e` keys over legacy `start_c`/`end_c`, remap indices to true
`c` values, reconstruct `original` when missing, and normalise the
translation (`block.t || block.translation || ''`). -/
def convertBlock (words : List Word) (rb : RawBlock) : Block :=
  let startIndex := match rb.s with | some v => some v | none => rb.start_c
  let endIndex := match rb.e with | some v => some v | none => rb.end_c
  let start_c := mapIndex words startIndex
  let end_c := mapIndex words endIndex
  let original0 := rb.original.getD ""
  let original :=
    if original0 = "" then
      match startIndex, endIndex with
      | some lo, some hi => reconstructOriginal words lo hi
      | _, _ => original0
    else original0
  let tr :=
    match rb.t with
    | some x =>
      if x ≠ "" then x
      else (match rb.translation with | some y => if y ≠ "" then y else "" | none => "")
    | none => (match rb.translation with | some y => if y ≠ "" then y else "" | none => "")
  { start_c := start_c, end_c := end_c, original := original, translation := some tr }

/-- Conversion of a whole raw response: the map over `parsed.blocks`,
applied only when the blocks array is present, as in the source. -/
def convertParsed (words : List Word) (rp : RawParsed) : Parsed :=
  ⟨rp.blocks.map (fun l => l.map (convertBlock words))⟩

/-- The outcome of the external generator for one attempt, at the point
where the orchestrator's `try` block takes over: a failed HTTP response
(status and resolved error message), an unparseable body, or a parsed
JSON object. -/
inductive GenOutcome where
  | fetchError (status : Int) (errMsg : String)
  | parseError (msg : String)
  | parsed (rp : RawParsed)
deriving DecidableEq, Repr

/-- What one attempt's `try` body does, before the best-result update is
applied: throw an error message, produce a structurally valid result but
throw for semantic retry, or produce a structurally valid result and
return it. -/
inductive BodyCore where
  | thrown (msg : String)
  | validThrown (p : Parsed) (viol : List Violation) (msg : String)
  | validAccept (p : Parsed) (viol : List Violation)
deriving DecidableEq, Repr

/-- The message of the semantic-retry error: the error-severity messages
joined by `; `, falling back to the first violation's message when that
join is empty. -/
def semFailMsg (viol : List Violation) : String :=
  let errs := String.intercalate "; "
    ((viol.filter (fun v => v.severity == "error")).map (fun v => v.message))
  if errs = "" then (match viol with | v :: _ => v.message | [] => "") else errs

/-- The `try` body of one attempt of `handlePositionBasedPartitioning`,
from the generator outcome to the thrown/returned value: HTTP failures
become `Invalid API key: ...` (on 401) or `API error (...): ...`; parse
failures become `Failed to parse JSON response: ...`; otherwise the raw
blocks are converted, structurally validated (`Structural: ...` on
failure) and semantically validated (`Semantic: ...` when retry-worthy).
-/
def bodyCore (words : List Word) (g : GenOutcome) : BodyCore :=
  match g with
  | .fetchError status errMsg =>
    if status = 401 then .thrown ("Invalid API key: " ++ errMsg)
    else .thrown ("API error (" ++ toString status ++ "): " ++ errMsg)
  | .parseError m => .thrown ("Failed to parse JSON response: " ++ m)
  | .parsed rp =>
    let cv := convertParsed words rp
    let sv := validateLLMResponse cv words
    if sv.valid then
      let sem := validateSemantics (cv.blocks.getD []) words
      if sem.shouldRetry then
        .validThrown cv sem.violations ("Semantic: " ++ semFailMsg sem.violations)
      else .validAccept cv sem.violations
    else .thrown ("Structural: " ++ sv.error.getD "")

/-- The tracked best result: the stored parsed response together with its
`semanticViolations`. -/
structure BestR where
  parsed : Parsed
  viol : List Violation
deriving DecidableEq, Repr

/-- The best-result update
`if (!bestResult || violations.length < bestResult.semanticViolations.length)`,
returning the new best and whether the store happened. -/
def updateBest (best : Option BestR) (p : Parsed) (v : List Violation) :
    Option BestR × Bool :=
  match best with
  | none => (some ⟨p, v⟩, true)
  | some b => if v.length < b.viol.length then (some ⟨p, v⟩, true) else (some b, false)

/-- Substring occurrence on character lists (JS `String.includes`). -/
def charsHaveSub (pat : List Char) : List Char → Bool
  | [] => pat.isEmpty
  | c :: t => pat.isPrefixOf (c :: t) || charsHaveSub pat t

/-- JS `s.includes(pat)`. -/
def strHasSub (s pat : String) : Bool := charsHaveSub pat.data s.data

/-- The non-retryable test of the `catch` handler:
`error.message.includes('Invalid API key') ||
error.message.includes('API Key not found')`. -/
def nonRetryable (m : String) : Bool :=
  strHasSub m "Invalid API key" || strHasSub m "API Key not found"

/-- The delay actually slept before a retry: `retryConfig.delay || 1000`
(a configured delay of `0` is falsy in JS and is replaced by `1000`). -/
def sleepDelay (cfg : RetryCfg) : Nat :=
  if cfg.delay = 0 then 1000 else cfg.delay

/-- Observable events of one orchestrator run: a generator call for an
attempt, or a sleep of the given milliseconds. -/
inductive Ev where
  | genCall (attempt : Nat)
  | sleepEv (ms : Nat)
deriving DecidableEq, Repr

/-- Per-attempt record of a run: either the attempt threw before
producing a structurally valid result, or it produced one (with its
semantic violations and whether it was stored as best). -/
inductive ARec where
  | errA (attempt : Nat) (msg : String)
  | okA (attempt : Nat) (p : Parsed) (viol : List Violation) (stored : Bool)
deriving DecidableEq, Repr

/-- The observable outcome of a `handlePositionBasedPartitioning` run:
the returned/thrown value, the event trace, and the per-attempt records.
-/
structure RunOut where
  result : Except String Parsed
  events : List Ev
  recs : List ARec
deriving Repr

/-- The message thrown when no API key is configured. -/
def apiKeyMissingMsg : String :=
  "API Key not found. Please set it in the extension popup."

/-- The exhaustion message `Failed after N attempts: <last error>`. -/
def failedAfterMsg (maxR : Nat) (lastErrMsg : String) : String :=
  "Failed after " ++ toString maxR ++ " attempts: " ++ lastErrMsg

/-- What runs after the attempt loop: return the tracked best result if
one exists, otherwise throw the exhaustion error. -/
def finishRun (maxR : Nat) (best : Option BestR) (lastErrMsg : String) :
    Except String Parsed :=
  match best with
  | some b => .ok b.parsed
  | none => .error (failedAfterMsg maxR lastErrMsg)

/-- The attempt loop of `handlePositionBasedPartitioning`: attempt `n`
with `fuel` attempts remaining (the entry point uses `n = 1`,
`fuel = maxR`).  Each iteration runs the `try` body; on a retryable error
it records the message as last error and, when `n < maxR`, sleeps
`retryConfig.delay || 1000`; a non-retryable error aborts the whole run;
a structurally valid result updates the best and is returned at once when
semantic validation does not ask for a retry. -/
def loopRun (gen : Nat → GenOutcome) (words : List Word) (maxR : Nat) :
    Nat → Nat → Option BestR → String → RunOut
  | _, 0, best, lastMsg => ⟨finishRun maxR best lastMsg, [], []⟩
  | n, fuel + 1, best, lastMsg =>
    match bodyCore words (gen n) with
    | .thrown m =>
      if nonRetryable m then ⟨.error m, [.genCall n], [.errA n m]⟩
      else
        let rest := loopRun gen words maxR (n + 1) fuel best m
        let evs := if n < maxR then
            [Ev.genCall n, Ev.sleepEv (sleepDelay (getRetryConfig n))]
          else [Ev.genCall n]
        ⟨rest.result, evs ++ rest.events, .errA n m :: rest.recs⟩
    | .validThrown p v m =>
      let ub := updateBest best p v
      if nonRetryable m then ⟨.error m, [.genCall n], [.okA n p v ub.2]⟩
      else
        let rest := loopRun gen words maxR (n + 1) fuel ub.1 m
        let evs := if n < maxR then
            [Ev.genCall n, Ev.sleepEv (sleepDelay (getRetryConfig n))]
          else [Ev.genCall n]
        ⟨rest.result, evs ++ rest.events, .okA n p v ub.2 :: rest.recs⟩
    | .validAccept p v =>
      let ub := updateBest best p v
      ⟨.ok p, [.genCall n], [.okA n p v ub.2]⟩

/-- The truthiness test on the stored API key (`if (!openaiApiKey)`). -/
def keyPresent : Option String → Bool
  | none => false
  | some s => s ≠ ""

/-- `handlePositionBasedPartitioning` from `src/background.js`, as a
function of the stored API key, the generator oracle (one outcome per
attempt number), and the caller's word list. -/
def handlePositionBasedPartitioning (apiKey : Option String)
    (gen : Nat → GenOutcome) (words : List Word) : RunOut :=
  if keyPresent apiKey then loopRun gen words getMaxRetries 1 getMaxRetries none ""
  else ⟨.error apiKeyMissingMsg, [], []⟩

/-- An attempt outcome that is a retryable failure: the body throws and
the message does not match the non-retryable filter. -/
def hardFailB (words : List Word) (g : GenOutcome) : Bool :=
  match bodyCore words g with
  | .thrown m => !nonRetryable m
  | _ => false

/-- An attempt outcome that fails (thrown, with or without a structurally
valid result) with a retryable message. -/
def retryFailB (words : List Word) (g : GenOutcome) : Bool :=
  match bodyCore words g with
  | .thrown m => !nonRetryable m
  | .validThrown _ _ m => !nonRetryable m
  | .validAccept _ _ => false

/-- An attempt outcome that does not abort the loop (not a non-retryable
error). -/
def notAbortB (words : List Word) (g : GenOutcome) : Bool :=
  match bodyCore words g with
  | .thrown m => !nonRetryable m
  | .validThrown _ _ m => !nonRetryable m
  | .validAccept _ _ => true

/-- An attempt outcome that produced a structurally valid result. -/
def producesValidB (words : List Word) (g : GenOutcome) : Bool :=
  match bodyCore words g with
  | .thrown _ => false
  | _ => true

/-- The message the attempt's body throws (empty for an accepted
attempt). -/
def thrownMsgOf (words : List Word) (g : GenOutcome) : String :=
  match bodyCore words g with
  | .thrown m => m
  | .validThrown _ _ m => m
  | .validAccept _ _ => ""

/-- Event classifier: generator calls. -/
def isGenCall : Ev → Bool
  | .genCall _ => true
  | .sleepEv _ => false

/-- Event classifier: sleeps. -/
def isSleepEv : Ev → Bool
  | .sleepEv _ => true
  | .genCall _ => false

/-- Projection lemma: `valid` of `validateSemantics` is the absence of
error-severity violations among the collected violations. -/
theorem validateSemantics_valid_eq (blocks : List Block) (words : List Word) :
    (validateSemantics blocks words).valid =
      !((validateSemantics blocks words).violations.any (fun v => v.severity == "error")) := rfl

/-- Projection lemma: `shouldRetry` of `validateSemantics` in terms of
the collected violations. -/
theorem validateSemantics_retry_eq (blocks : List Block) (words : List Word) :
    (validateSemantics blocks words).shouldRetry =
      ((validateSemantics blocks words).violations.any (fun v => v.severity == "error") ||
       ((validateSemantics blocks words).violations.any (fun v => v.severity == "warning") &&
        decide ((validateSemantics blocks words).violations.length ≥ 2))) := rfl

/-- C3: `validateSemantics` returns `valid = true` iff no collected
violation has severity error; `shouldRetry = true` iff some violation has
severity error, or some violation has severity warning and the total
violation count is at least 2; in particular a single warning-severity
violation yields `valid = true` and `shouldRetry = false`. -/
theorem c3_validateSemantics_aggregation (blocks : List Block) (words : List Word) :
    ((validateSemantics blocks words).valid = true ↔
      ∀ v ∈ (validateSemantics blocks words).violations, v.severity ≠ "error") ∧
    ((validateSemantics blocks words).shouldRetry = true ↔
      ((∃ v ∈ (validateSemantics blocks words).violations, v.severity = "error") ∨
       ((∃ v ∈ (validateSemantics blocks words).violations, v.severity = "warning") ∧
        2 ≤ (validateSemantics blocks words).violations.length))) ∧
    ((validateSemantics blocks words).violations.length = 1 →
      (∀ v ∈ (validateSemantics blocks words).violations, v.severity = "warning") →
      (validateSemantics blocks words).valid = true ∧
      (validateSemantics blocks words).shouldRetry = false) := by
  rw [validateSemantics_valid_eq, validateSemantics_retry_eq]
  generalize (validateSemantics blocks words).violations = V
  refine ⟨?_, ?_, ?_⟩
  · simp [List.any_eq_true]
  · simp [List.any_eq_true, ge_iff_le]
  · intro hlen hwarn
    have herr : V.any (fun v => v.severity == "error") = false := by
      simp only [List.any_eq_false]
      intro v hv
      simp [hwarn v hv]
    have h2 : decide (V.length ≥ 2) = false := by
      simp [hlen]
    simp [herr, h2]

/-- Concrete input for the C3 witness: a single block absorbing a
discourse marker, producing exactly one warning-severity violation. -/
def c3Blocks : List Block := [⟨some 0, some 1, "cependant il", some "x"⟩]

/-- C3 witness: on `c3Blocks` the single isolated warning is tolerated. -/
theorem c3_witness :
    (validateSemantics c3Blocks []).valid = true ∧
    (validateSemantics c3Blocks []).shouldRetry = false :=
  (c3_validateSemantics_aggregation c3Blocks []).2.2 (by decide) (by decide)

/-- The linking-verb scan only ever reports a block that has a
successor: every reported index is at least the start index and leaves at
least one later block in the scanned list. -/
theorem checkLinkingVerbIsolationAux_index :
    ∀ (bs : List Block) (i : Nat) (v : Violation),
      v ∈ checkLinkingVerbIsolationAux i bs →
      i ≤ v.blockIndex ∧ v.blockIndex - i + 1 < bs.length := by
  intro bs
  induction bs with
  | nil => intro i v hv; simp [checkLinkingVerbIsolationAux] at hv
  | cons b t ih =>
    intro i v hv
    cases t with
    | nil => simp [checkLinkingVerbIsolationAux] at hv
    | cons nb t2 =>
      simp only [checkLinkingVerbIsolationAux, List.mem_append] at hv
      rcases hv with hv | hv
      · have hidx : v.blockIndex = i := by
          split at hv
          · simp at hv
          · split at hv
            · split at hv
              · simp at hv
                subst hv
                rfl
              · simp at hv
            · simp at hv
        refine ⟨Nat.le_of_eq hidx.symm, ?_⟩
        rw [hidx]
        simp only [List.length_cons]
        omega
      · have h2 := ih (i + 1) v hv
        simp only [List.length_cons] at h2 ⊢
        omega

/-- Concrete input for C10: a segmentation whose final block is a lone
copula. -/
def c10Blocks : List Block :=
  [⟨some 0, some 1, "le chat", some "the cat"⟩, ⟨some 2, some 2, "est", some "is"⟩]

/-- C10: `checkLinkingVerbIsolation` only examines blocks that have a
successor, so no `linking_verb_isolated` violation is ever reported for
the final block; in particular a segmentation ending in an isolated
copula (`"est"`) passes semantic validation with no violations at all. -/
theorem c10_linking_check_skips_final :
    (∀ (bs : List Block) (v : Violation), v ∈ checkLinkingVerbIsolation bs →
      v.blockIndex + 1 < bs.length) ∧
    validateSemantics c10Blocks [] = ⟨true, [], false⟩ := by
  constructor
  · intro bs v hv
    have := checkLinkingVerbIsolationAux_index bs 0 v hv
    omega
  · rfl

/-- The violation produced on the C10 witness input (`"est"` followed by
a non-verb block). -/
def c10WitViolation : Violation :=
  { type := "linking_verb_isolated",
    message := "Linking verb " ++ qtS ++ "est" ++ qtS ++ " should merge with " ++
      qtS ++ "un défi" ++ qtS,
    severity := "error",
    blockIndex := 0,
    suggestion := "est un défi" }

/-- The block list for the C10 witness: a lone copula with a successor,
which does get flagged — at a non-final index. -/
def c10WitBlocks : List Block :=
  [⟨some 0, some 0, "est", some "is"⟩, ⟨some 1, some 2, "un défi", some "a challenge"⟩]

/-- C10 witness: the reported violation on `c10WitBlocks` indeed points
at a block with a successor. -/
theorem c10_witness :
    c10WitViolation ∈ checkLinkingVerbIsolation c10WitBlocks ∧
    c10WitViolation.blockIndex + 1 < c10WitBlocks.length :=
  ⟨by decide, c10_linking_check_skips_final.1 c10WitBlocks c10WitViolation (by decide)⟩

/-- C8: the compact/expand round trip.  Compacting assigns index `i` the
position `words[i].c` (the simplified array pairs index `i` with
`words[i].text`), and converting a candidate block whose `s`/`e` fields
are valid indices yields exactly the positions of the words at those
indices. -/
theorem c8_remap_round_trip (words : List Word) (s e : Nat)
    (hs : s < words.length) (he : e < words.length) (rb : RawBlock)
    (hrs : rb.s = some (s : Int)) (hre : rb.e = some (e : Int)) :
    ((simplifiedWords words).length = words.length ∧
     ∀ i (hi : i < words.length),
       indexToC words (i : Int) = some (words.get ⟨i, hi⟩).c ∧
       (simplifiedWords words).getD i ⟨0, ""⟩ = ⟨i, (words.get ⟨i, hi⟩).text⟩) ∧
    (convertBlock words rb).start_c = some (words.get ⟨s, hs⟩).c ∧
    (convertBlock words rb).end_c = some (words.get ⟨e, he⟩).c := by
  have hidx : ∀ i (hi : i < words.length),
      indexToC words (i : Int) = some (words.get ⟨i, hi⟩).c := by
    intro i hi
    have hcond : 0 ≤ (i : Int) ∧ (i : Int).toNat < words.length := by
      constructor
      · exact Int.natCast_nonneg i
      · simpa using hi
    rw [indexToC, dif_pos hcond]
    congr 1
  refine ⟨⟨?_, ?_⟩, ?_, ?_⟩
  · simp [simplifiedWords]
  · intro i hi
    refine ⟨hidx i hi, ?_⟩
    simp [simplifiedWords, List.getD_eq_getElem?_getD, List.getElem?_map]
    rw [List.getElem?_eq_getElem hi]
    simp
  · have h1 : (convertBlock words rb).start_c =
        mapIndex words (match rb.s with | some v => some v | none => rb.start_c) := rfl
    rw [h1, hrs]
    simp [mapIndex, hidx s hs]
  · have h1 : (convertBlock words rb).end_c =
        mapIndex words (match rb.e with | some v => some v | none => rb.end_c) := rfl
    rw [h1, hre]
    simp [mapIndex, hidx e he]

/-- A generator oracle whose every attempt fails to parse. -/
def allParseGen : Nat → GenOutcome := fun _ => .parseError "x"

/-- A one-word input list. -/
def oneWord : List Word := [⟨0, "a"⟩]

/-- C6: the escalation table configures a 0 ms delay after attempt 1
(`RETRY_CONFIG[0].delay = 0`), but the orchestrator waits
`retryConfig.delay || 1000`, and a configured delay of 0 is falsy in JS:
after failed attempt 1 the run sleeps 1000 ms, not the configured 0 ms
(and 1000 ms again after attempt 2, as configured). -/
theorem c6_first_retry_delay :
    (handlePositionBasedPartitioning (some "key") allParseGen oneWord).events =
      [Ev.genCall 1, Ev.sleepEv 1000, Ev.genCall 2, Ev.sleepEv 1000, Ev.genCall 3] ∧
    (getRetryConfig 1).delay = 0 ∧
    sleepDelay (getRetryConfig 1) = 1000 :=
  ⟨rfl, rfl, rfl⟩

/-- Structural well-formedness of one block with respect to a list of
valid position values: present numeric endpoints in order, both positions
known, and a non-empty translation — exactly what the per-block checks of
`validateLLMResponse` enforce. -/
def BlockOkC (cvals : List Int) (b : Block) : Prop :=
  ∃ s e, b.start_c = some s ∧ b.end_c = some e ∧ s ≤ e ∧ s ∈ cvals ∧ e ∈ cvals ∧
    ∃ t, b.translation = some t ∧ t ≠ ""

/-- `x` lies in the closed position range `[start_c, end_c]` of a block
(which requires both endpoints to be present). -/
def InRange (b : Block) (x : Int) : Prop :=
  ∃ s e, b.start_c = some s ∧ b.end_c = some e ∧ s ≤ x ∧ x ≤ e

/-- The closed position ranges of two blocks do not intersect. -/
def RangesDisjoint (a b : Block) : Prop := ∀ x : Int, ¬(InRange a x ∧ InRange b x)

/-- Bridge between `List.contains` (the embedding of `Set.has`) and
membership. -/
theorem contains_iff_mem_int (l : List Int) (x : Int) :
    l.contains x = true ↔ x ∈ l := by
  simp [List.contains, List.elem_iff]

/-- The per-block check passes exactly on well-formed blocks. -/
theorem checkBlock_eq_none_iff (i : Nat) (b : Block) (cv : List Int) :
    checkBlock i b cv = none ↔ BlockOkC cv b := by
  cases hs : b.start_c with
  | none => simp [checkBlock, BlockOkC, hs]
  | some s =>
    cases he : b.end_c with
    | none => simp [checkBlock, BlockOkC, hs, he]
    | some e =>
      cases ht : b.translation with
      | none => simp [checkBlock, BlockOkC, hs, he, ht]
      | some t =>
        simp only [checkBlock, BlockOkC, hs, he, ht]
        constructor
        · intro h0
          split_ifs at h0 with h1 h2 h3 h4
          refine ⟨s, e, rfl, rfl, by omega, ?_, ?_, t, rfl, ?_⟩
          · exact (contains_iff_mem_int cv s).mp (by simpa using h2)
          · exact (contains_iff_mem_int cv e).mp (by simpa using h3)
          · simpa using h1
        · rintro ⟨s2, e2, hs2, he2, hle, hm1, hm2, t2, ht2, hne⟩
          obtain rfl := Option.some.inj hs2
          obtain rfl := Option.some.inj he2
          obtain rfl := Option.some.inj ht2
          simp [hne, hm1, hm2, Int.not_lt.mpr hle]

/-- The block loop passes exactly when every block is well-formed. -/
theorem checkBlocksFrom_eq_none_iff :
    ∀ (bs : List Block) (i : Nat) (cv : List Int),
      checkBlocksFrom i bs cv = none ↔ ∀ b ∈ bs, BlockOkC cv b := by
  intro bs
  induction bs with
  | nil => intro i cv; simp [checkBlocksFrom]
  | cons b t ih =>
    intro i cv
    simp only [checkBlocksFrom]
    cases hcb : checkBlock i b cv with
    | some m =>
      have hnb : ¬ BlockOkC cv b := by
        rw [← checkBlock_eq_none_iff i b cv]
        simp [hcb]
      simp [List.forall_mem_cons, hnb]
    | none =>
      have hb : BlockOkC cv b := (checkBlock_eq_none_iff i b cv).mp hcb
      simp [List.forall_mem_cons, hb, ih (i + 1) cv]

/-- The overlap loop passes exactly when consecutive sorted blocks are
strictly separated. -/
theorem checkOverlapFrom_eq_none_iff :
    ∀ (L : List Block) (i : Nat),
      checkOverlapFrom i L = none ↔
        List.Chain' (fun a b => endD a < startD b) L := by
  intro L
  induction L with
  | nil => intro i; simp [checkOverlapFrom]
  | cons a t ih =>
    intro i
    cases t with
    | nil => simp [checkOverlapFrom]
    | cons b t2 =>
      simp only [checkOverlapFrom, List.chain'_cons]
      split_ifs with h
      · constructor
        · intro hfalse; simp at hfalse
        · rintro ⟨h1, _⟩; omega
      · rw [ih (i + 1)]
        have h2 : endD a < startD b := by omega
        simp [h2]

/-- Branch characterisation of a `valid` verdict of
`validateLLMResponse`: the blocks are present, non-empty, and both scans
pass. -/
theorem validateLLMResponse_valid_iff (parsed : Parsed) (words : List Word) :
    (validateLLMResponse parsed words).valid = true ↔
      ∃ bs, parsed.blocks = some bs ∧ bs ≠ [] ∧
        checkBlocksFrom 0 bs (cValues words) = none ∧
        checkOverlapFrom 1 (sortByStart bs) = none := by
  cases hpb : parsed.blocks with
  | none => simp [validateLLMResponse, hpb]
  | some bs =>
    by_cases hbe : bs = []
    · simp [validateLLMResponse, hpb, hbe]
    · cases hcb : checkBlocksFrom 0 bs (cValues words) with
      | some m => simp [validateLLMResponse, hpb, hbe, hcb]
      | none =>
        cases hov : checkOverlapFrom 1 (sortByStart bs) with
        | some m => simp [validateLLMResponse, hpb, hbe, hcb, hov]
        | none => simp [validateLLMResponse, hpb, hbe, hcb, hov]

/-- Upgrade the chain of strict separation with per-element ordering into
a chain of a transitive relation. -/
theorem chain_upgrade :
    ∀ {L : List Block},
      List.Chain' (fun a b => endD a < startD b) L →
      (∀ b ∈ L, startD b ≤ endD b) →
      List.Chain' (fun a b => endD a < startD b ∧ startD b ≤ endD b) L := by
  intro L
  induction L with
  | nil => intro _ _; simp
  | cons a t ih =>
    cases t with
    | nil => intro _ _; simp
    | cons b t2 =>
      intro hch hok
      rw [List.chain'_cons] at hch ⊢
      refine ⟨⟨hch.1, hok b (by simp)⟩, ih hch.2 ?_⟩
      intro x hx
      exact hok x (by simp [hx])

/-- Strict separation of two blocks (in either order) makes their closed
ranges disjoint. -/
theorem disjD_to_ranges (a b : Block) :
    (endD a < startD b ∨ endD b < startD a) → RangesDisjoint a b := by
  rintro h x ⟨⟨sa, ea, hsa, hea, h1, h2⟩, ⟨sb, eb, hsb, heb, h3, h4⟩⟩
  have e1 : endD a = ea := by simp [endD, hea]
  have e2 : startD a = sa := by simp [startD, hsa]
  have e3 : endD b = eb := by simp [endD, heb]
  have e4 : startD b = sb := by simp [startD, hsb]
  omega

/-- Soundness of `validateLLMResponse`: a `valid` verdict implies a
non-empty block list whose blocks are all well-formed and pairwise
disjoint. -/
theorem validateLLMResponse_valid_sound (parsed : Parsed) (words : List Word)
    (h : (validateLLMResponse parsed words).valid = true) :
    ∃ bs, parsed.blocks = some bs ∧ bs ≠ [] ∧
      (∀ b ∈ bs, BlockOkC (cValues words) b) ∧
      List.Pairwise RangesDisjoint bs := by
  obtain ⟨bs, hb, hbe, hcb, hov⟩ := (validateLLMResponse_valid_iff parsed words).mp h
  have hok : ∀ b ∈ bs, BlockOkC (cValues words) b :=
    (checkBlocksFrom_eq_none_iff bs 0 _).mp hcb
  have hperm : (sortByStart bs).Perm bs := List.perm_insertionSort _ bs
  have hoks : ∀ b ∈ sortByStart bs, BlockOkC (cValues words) b :=
    fun b hb2 => hok b (hperm.mem_iff.mp hb2)
  have hchain : List.Chain' (fun a b => endD a < startD b) (sortByStart bs) :=
    (checkOverlapFrom_eq_none_iff _ 1).mp hov
  have hsOk : ∀ b ∈ sortByStart bs, startD b ≤ endD b := by
    intro b hb2
    obtain ⟨s, e, hscc, hecc, hle, _⟩ := hoks b hb2
    simpa [startD, endD, hscc, hecc] using hle
  have hchain2 := chain_upgrade hchain hsOk
  haveI : IsTrans Block (fun a b => endD a < startD b ∧ startD b ≤ endD b) := by
    constructor
    intro a b c h1 h2
    exact ⟨by omega, h2.2⟩
  have hpw2 := List.chain'_iff_pairwise.mp hchain2
  have hpwAdj : List.Pairwise
      (fun a b : Block => endD a < startD b ∨ endD b < startD a)
      (sortByStart bs) := hpw2.imp (fun h => Or.inl h.1)
  have hsymm : ∀ {x y : Block},
      (endD x < startD y ∨ endD y < startD x) →
      (endD y < startD x ∨ endD x < startD y) := fun h => h.symm
  have hpwBs : List.Pairwise
      (fun a b : Block => endD a < startD b ∨ endD b < startD a) bs :=
    (List.Perm.pairwise_iff hsymm hperm).mp hpwAdj
  exact ⟨bs, hb, hbe, hok, hpwBs.imp (fun h => disjD_to_ranges _ _ h)⟩

/-- Unfolding lemma: the loop with no remaining attempts finishes. -/
theorem loopRun_zero (gen : Nat → GenOutcome) (words : List Word) (maxR : Nat)
    (n : Nat) (best : Option BestR) (lastMsg : String) :
    loopRun gen words maxR n 0 best lastMsg =
      ⟨finishRun maxR best lastMsg, [], []⟩ := rfl

/-- Unfolding lemma: a thrown non-retryable message aborts the run. -/
theorem loopRun_thrown_abort (gen : Nat → GenOutcome) (words : List Word)
    (maxR n fuel : Nat) (best : Option BestR) (lastMsg m : String)
    (hg : bodyCore words (gen n) = .thrown m) (hnr : nonRetryable m = true) :
    loopRun gen words maxR n (fuel + 1) best lastMsg =
      ⟨.error m, [.genCall n], [.errA n m]⟩ := by
  simp only [loopRun, hg, hnr]
  rfl

/-- Unfolding lemma: a thrown retryable message records the failure,
sleeps when attempts remain, and continues. -/
theorem loopRun_thrown_retry (gen : Nat → GenOutcome) (words : List Word)
    (maxR n fuel : Nat) (best : Option BestR) (lastMsg m : String)
    (hg : bodyCore words (gen n) = .thrown m) (hnr : nonRetryable m = false) :
    loopRun gen words maxR n (fuel + 1) best lastMsg =
      ⟨(loopRun gen words maxR (n + 1) fuel best m).result,
       (if n < maxR then [Ev.genCall n, Ev.sleepEv (sleepDelay (getRetryConfig n))]
        else [Ev.genCall n]) ++ (loopRun gen words maxR (n + 1) fuel best m).events,
       .errA n m :: (loopRun gen words maxR (n + 1) fuel best m).recs⟩ := by
  simp only [loopRun, hg, hnr]
  rfl

/-- Unfolding lemma: a valid-but-retry-worthy attempt with a
non-retryable message aborts after updating the best. -/
theorem loopRun_vthrown_abort (gen : Nat → GenOutcome) (words : List Word)
    (maxR n fuel : Nat) (best : Option BestR) (lastMsg : String)
    (p : Parsed) (v : List Violation) (m : String)
    (hg : bodyCore words (gen n) = .validThrown p v m) (hnr : nonRetryable m = true) :
    loopRun gen words maxR n (fuel + 1) best lastMsg =
      ⟨.error m, [.genCall n], [.okA n p v (updateBest best p v).2]⟩ := by
  simp only [loopRun, hg, hnr]
  rfl

/-- Unfolding lemma: a valid-but-retry-worthy attempt updates the best,
records the attempt, sleeps when attempts remain, and continues. -/
theorem loopRun_vthrown_retry (gen : Nat → GenOutcome) (words : List Word)
    (maxR n fuel : Nat) (best : Option BestR) (lastMsg : String)
    (p : Parsed) (v : List Violation) (m : String)
    (hg : bodyCore words (gen n) = .validThrown p v m) (hnr : nonRetryable m = false) :
    loopRun gen words maxR n (fuel + 1) best lastMsg =
      ⟨(loopRun gen words maxR (n + 1) fuel (updateBest best p v).1 m).result,
       (if n < maxR then [Ev.genCall n, Ev.sleepEv (sleepDelay (getRetryConfig n))]
        else [Ev.genCall n]) ++
         (loopRun gen words maxR (n + 1) fuel (updateBest best p v).1 m).events,
       .okA n p v (updateBest best p v).2 ::
         (loopRun gen words maxR (n + 1) fuel (updateBest best p v).1 m).recs⟩ := by
  simp only [loopRun, hg, hnr]
  rfl

/-- Unfolding lemma: an accepted attempt returns at once. -/
theorem loopRun_accept (gen : Nat → GenOutcome) (words : List Word)
    (maxR n fuel : Nat) (best : Option BestR) (lastMsg : String)
    (p : Parsed) (v : List Violation)
    (hg : bodyCore words (gen n) = .validAccept p v) :
    loopRun gen words maxR n (fuel + 1) best lastMsg =
      ⟨.ok p, [.genCall n], [.okA n p v (updateBest best p v).2]⟩ := by
  simp only [loopRun, hg]

/-- A `validThrown` outcome of the attempt body carries a structurally
valid parsed result. -/
theorem bodyCore_validThrown_valid (words : List Word) (g : GenOutcome)
    (p : Parsed) (v : List Violation) (m : String)
    (h : bodyCore words g = .validThrown p v m) :
    (validateLLMResponse p words).valid = true := by
  cases g with
  | fetchError status msg =>
    simp only [bodyCore] at h
    split_ifs at h
  | parseError msg => exact BodyCore.noConfusion h
  | parsed rp =>
    simp only [bodyCore] at h
    by_cases hv : (validateLLMResponse (convertParsed words rp) words).valid = true
    · rw [if_pos hv] at h
      split_ifs at h with hr
      cases h
      exact hv
    · rw [if_neg hv] at h
      exact BodyCore.noConfusion h

/-- A `validAccept` outcome of the attempt body carries a structurally
valid parsed result. -/
theorem bodyCore_validAccept_valid (words : List Word) (g : GenOutcome)
    (p : Parsed) (v : List Violation)
    (h : bodyCore words g = .validAccept p v) :
    (validateLLMResponse p words).valid = true := by
  cases g with
  | fetchError status msg =>
    simp only [bodyCore] at h
    split_ifs at h
  | parseError msg => exact BodyCore.noConfusion h
  | parsed rp =>
    simp only [bodyCore] at h
    by_cases hv : (validateLLMResponse (convertParsed words rp) words).valid = true
    · rw [if_pos hv] at h
      split_ifs at h with hr
      cases h
      exact hv
    · rw [if_neg hv] at h
      exact BodyCore.noConfusion h

/-- Loop invariant of the orchestrator: whenever the stored best result
is structurally valid, any parsed response the loop returns with `ok` is
structurally valid (it is either an accepted attempt or the stored
best). -/
theorem loopRun_result_ok (gen : Nat → GenOutcome) (words : List Word) (maxR : Nat) :
    ∀ (fuel n : Nat) (best : Option BestR) (lastMsg : String),
      (∀ b, best = some b → (validateLLMResponse b.parsed words).valid = true) →
      ∀ p, (loopRun gen words maxR n fuel best lastMsg).result = Except.ok p →
        (validateLLMResponse p words).valid = true := by
  intro fuel
  induction fuel with
  | zero =>
    intro n best lastMsg hbest p hp
    cases best with
    | none => simp [loopRun_zero, finishRun] at hp
    | some b =>
      rw [loopRun_zero] at hp
      simp only [finishRun] at hp
      injection hp with h1
      subst h1
      exact hbest b rfl
  | succ fuel ih =>
    intro n best lastMsg hbest p hp
    cases hg : bodyCore words (gen n) with
    | thrown m =>
      cases hnr : nonRetryable m with
      | true =>
        rw [loopRun_thrown_abort gen words maxR n fuel best lastMsg m hg hnr] at hp
        simp at hp
      | false =>
        rw [loopRun_thrown_retry gen words maxR n fuel best lastMsg m hg hnr] at hp
        exact ih (n + 1) best m hbest p hp
    | validThrown p2 v m =>
      have hbest2 : ∀ b, (updateBest best p2 v).1 = some b →
          (validateLLMResponse b.parsed words).valid = true := by
        intro b hb
        cases best with
        | none =>
          simp only [updateBest] at hb
          injection hb with h1
          subst h1
          exact bodyCore_validThrown_valid words (gen n) p2 v m hg
        | some b0 =>
          simp only [updateBest] at hb
          split_ifs at hb
          · injection hb with h1
            subst h1
            exact bodyCore_validThrown_valid words (gen n) p2 v m hg
          · injection hb with h1
            subst h1
            exact hbest b0 rfl
      cases hnr : nonRetryable m with
      | true =>
        rw [loopRun_vthrown_abort gen words maxR n fuel best lastMsg p2 v m hg hnr] at hp
        simp at hp
      | false =>
        rw [loopRun_vthrown_retry gen words maxR n fuel best lastMsg p2 v m hg hnr] at hp
        exact ih (n + 1) (updateBest best p2 v).1 m hbest2 p hp
    | validAccept p2 v =>
      rw [loopRun_accept gen words maxR n fuel best lastMsg p2 v hg] at hp
      simp only at hp
      injection hp with h1
      subst h1
      exact bodyCore_validAccept_valid words (gen n) p2 v hg

/-- C1: every result `handlePositionBasedPartitioning` returns — whether
accepted immediately or via degraded acceptance — has a block list in
which every block has `start_c ≤ end_c` with both endpoints members of
the word-position set, and the closed ranges of distinct blocks do not
intersect. -/
theorem c1_accepted_result_invariants (apiKey : Option String)
    (gen : Nat → GenOutcome) (words : List Word) (p : Parsed)
    (h : (handlePositionBasedPartitioning apiKey gen words).result = Except.ok p) :
    ∃ bs, p.blocks = some bs ∧
      (∀ b ∈ bs, ∃ s e, b.start_c = some s ∧ b.end_c = some e ∧ s ≤ e ∧
        s ∈ cValues words ∧ e ∈ cValues words) ∧
      (∀ (i j : Nat) (hi : i < bs.length) (hj : j < bs.length), i ≠ j →
        ∀ x : Int, ¬(InRange bs[i] x ∧ InRange bs[j] x)) := by
  unfold handlePositionBasedPartitioning at h
  split_ifs at h with hk
  have hvalid := loopRun_result_ok gen words getMaxRetries getMaxRetries 1 none ""
    (by intro b hb; exact Option.noConfusion hb) p h
  obtain ⟨bs, hb, _, hok, hpw⟩ := validateLLMResponse_valid_sound p words hvalid
  refine ⟨bs, hb, ?_, ?_⟩
  · intro b hbm
    obtain ⟨s, e, h1, h2, h3, h4, h5, _⟩ := hok b hbm
    exact ⟨s, e, h1, h2, h3, h4, h5⟩
  · intro i j hi hj hne x hx
    have hGet := List.pairwise_iff_getElem.mp hpw
    rcases Nat.lt_or_ge i j with hij | hij
    · exact hGet i j hi hj hij x hx
    · have hij2 : j < i := by omega
      exact hGet j i hj hi hij2 x ⟨hx.2, hx.1⟩

/-- Concrete API key for the C1 witness. -/
def c1Key : Option String := some "key"

/-- Concrete generator for the C1 witness: one block covering both words
in compact-index form. -/
def c1Gen : Nat → GenOutcome :=
  fun _ => .parsed ⟨some [⟨some 0, some 1, none, none, none, some "The cat", none⟩]⟩

/-- Concrete words for the C1 witness. -/
def c1Words : List Word := [⟨0, "Le"⟩, ⟨1, "chat"⟩]

/-- The result the C1 witness run accepts. -/
def c1Result : Parsed := ⟨some [⟨some 0, some 1, "Le chat", some "The cat"⟩]⟩

set_option maxRecDepth 8000 in
/-- C1 witness: a concrete successful run satisfying the invariants. -/
theorem c1_witness :
    ∃ bs, c1Result.blocks = some bs ∧
      (∀ b ∈ bs, ∃ s e, b.start_c = some s ∧ b.end_c = some e ∧ s ≤ e ∧
        s ∈ cValues c1Words ∧ e ∈ cValues c1Words) ∧
      (∀ (i j : Nat) (hi : i < bs.length) (hj : j < bs.length), i ≠ j →
        ∀ x : Int, ¬(InRange bs[i] x ∧ InRange bs[j] x)) :=
  c1_accepted_result_invariants c1Key c1Gen c1Words c1Result (by rfl)

/-- The per-block violations of one block, in the spec's fixed check
order: missing numeric endpoints, missing/empty translation, start
membership, end membership, ordering.  (A candidate list of messages, of
which the validator reports the first.) -/
def specBlockViolations (i : Nat) (b : Block) (cvals : List Int) : List String :=
  (if b.start_c.isNone || b.end_c.isNone then
    ["Block " ++ toString i ++ ": missing start_c or end_c"] else []) ++
  (if (match b.translation with | none => true | some t => t = "") then
    ["Block " ++ toString i ++ ": missing or invalid translation"] else []) ++
  (if !cvals.contains (startD b) then
    ["Block " ++ toString i ++ ": start_c " ++ toString (startD b) ++ " not in word map"]
   else []) ++
  (if !cvals.contains (endD b) then
    ["Block " ++ toString i ++ ": end_c " ++ toString (endD b) ++ " not in word map"]
   else []) ++
  (if endD b < startD b then
    ["Block " ++ toString i ++ ": start_c > end_c"] else [])

/-- The first overlap violation on the sorted block list, as a scan over
adjacent pairs. -/
def specOverlapScan (sorted : List Block) : Option String :=
  (((sorted.zip sorted.tail).enumFrom 0).filterMap (fun q =>
    if startD q.2.2 ≤ endD q.2.1 then
      some ("Blocks " ++ toString q.1 ++ " and " ++ toString (q.1 + 1) ++ " overlap")
    else none)).head?

/-- Modelled from the spec's wording of the check order: the first
violation of `validateLLMResponse`, computed as a search — missing/empty
blocks first, then the per-block checks in block order (each block's
violations in the fixed sub-order), then the overlap scan on the sorted
list. -/
def specFirstError (parsed : Parsed) (words : List Word) : Option String :=
  match parsed.blocks with
  | none => some "Missing or invalid blocks array"
  | some bs =>
    if bs = [] then some "Empty blocks array"
    else
      match ((List.enumFrom 0 bs).flatMap
          (fun q => specBlockViolations q.1 q.2 (cValues words))).head? with
      | some m => some m
      | none => specOverlapScan (sortByStart bs)

/-- The sequential per-block check returns exactly the first spec-order
violation of that block. -/
theorem checkBlock_eq_specHead (i : Nat) (b : Block) (cv : List Int) :
    checkBlock i b cv = (specBlockViolations i b cv).head? := by
  cases hs : b.start_c with
  | none => simp [checkBlock, specBlockViolations, hs]
  | some s =>
    cases he : b.end_c with
    | none => simp [checkBlock, specBlockViolations, hs, he]
    | some e =>
      cases ht : b.translation with
      | none => simp [checkBlock, specBlockViolations, hs, he, ht, startD, endD]
      | some t =>
        simp only [checkBlock, specBlockViolations, hs, he, ht, startD, endD,
          Option.isNone_some, Bool.or_self, Bool.false_or, if_false,
          Option.getD_some]
        split_ifs <;> simp_all

/-- The block loop equals the first violation of the enumerated spec
search. -/
theorem checkBlocksFrom_eq_spec :
    ∀ (bs : List Block) (i : Nat) (cv : List Int),
      checkBlocksFrom i bs cv =
        ((List.enumFrom i bs).flatMap
          (fun q => specBlockViolations q.1 q.2 cv)).head? := by
  intro bs
  induction bs with
  | nil => intro i cv; simp [checkBlocksFrom]
  | cons b t ih =>
    intro i cv
    simp only [checkBlocksFrom, List.enumFrom_cons, List.flatMap_cons]
    rw [checkBlock_eq_specHead i b cv]
    cases hsv : specBlockViolations i b cv with
    | nil => simp [ih (i + 1) cv]
    | cons m ms => simp

/-- The overlap loop equals the adjacent-pair scan. -/
theorem checkOverlapFrom_eq_spec :
    ∀ (L : List Block) (k : Nat),
      checkOverlapFrom (k + 1) L =
        (((L.zip L.tail).enumFrom k).filterMap (fun q =>
          if startD q.2.2 ≤ endD q.2.1 then
            some ("Blocks " ++ toString q.1 ++ " and " ++ toString (q.1 + 1) ++ " overlap")
          else none)).head? := by
  intro L
  induction L with
  | nil => intro k; simp [checkOverlapFrom]
  | cons a t ih =>
    intro k
    cases t with
    | nil => simp [checkOverlapFrom]
    | cons b t2 =>
      simp only [checkOverlapFrom, List.tail_cons, List.zip_cons_cons,
        List.enumFrom_cons, List.filterMap_cons]
      split_ifs with h
      · simp
      · simpa using ih (k + 1)

/-- The error field of `validateLLMResponse` is exactly the spec-level
first violation. -/
theorem validateLLMResponse_error_eq_spec (parsed : Parsed) (words : List Word) :
    (validateLLMResponse parsed words).error = specFirstError parsed words := by
  cases hpb : parsed.blocks with
  | none => simp [validateLLMResponse, specFirstError, hpb]
  | some bs =>
    by_cases hbe : bs = []
    · simp [validateLLMResponse, specFirstError, hpb, hbe]
    · simp only [validateLLMResponse, specFirstError, hpb, if_neg hbe]
      rw [checkBlocksFrom_eq_spec bs 0 (cValues words)]
      cases hX : ((List.enumFrom 0 bs).flatMap
          (fun q => specBlockViolations q.1 q.2 (cValues words))).head? with
      | some m => simp
      | none =>
        have hov : checkOverlapFrom 1 (sortByStart bs) =
            specOverlapScan (sortByStart bs) :=
          checkOverlapFrom_eq_spec (sortByStart bs) 0
        rw [hov]
        cases hY : specOverlapScan (sortByStart bs) with
        | some m => simp
        | none => simp

/-- A `valid` verdict and an absent error coincide. -/
theorem validateLLMResponse_valid_iff_error_none (parsed : Parsed) (words : List Word) :
    (validateLLMResponse parsed words).valid = true ↔
      (validateLLMResponse parsed words).error = none := by
  cases hpb : parsed.blocks with
  | none => simp [validateLLMResponse, hpb]
  | some bs =>
    by_cases hbe : bs = []
    · simp [validateLLMResponse, hpb, hbe]
    · cases hcb : checkBlocksFrom 0 bs (cValues words) with
      | some m => simp [validateLLMResponse, hpb, hbe, hcb]
      | none =>
        cases hov : checkOverlapFrom 1 (sortByStart bs) with
        | some m => simp [validateLLMResponse, hpb, hbe, hcb, hov]
        | none => simp [validateLLMResponse, hpb, hbe, hcb, hov]

/-- C2: `validateLLMResponse` accepts exactly the non-empty block lists
whose blocks all have numeric `start_c`/`end_c`, a non-empty string
translation, both endpoints in the word-position set and `start_c ≤
end_c`, and in which, after sorting by `start_c`, each block starts
strictly after the previous block ends; on failure the reported error is
exactly the first violation in the fixed check order (never an
aggregate), and an error is reported exactly when the verdict is
invalid. -/
theorem c2_validateLLMResponse_spec (parsed : Parsed) (words : List Word) :
    ((validateLLMResponse parsed words).valid = true ↔
      (∃ bs, parsed.blocks = some bs ∧ bs ≠ [] ∧
        (∀ b ∈ bs, BlockOkC (cValues words) b) ∧
        List.Chain' (fun a b => endD a < startD b) (sortByStart bs))) ∧
    ((validateLLMResponse parsed words).error = specFirstError parsed words) ∧
    ((validateLLMResponse parsed words).valid = true ↔
      (validateLLMResponse parsed words).error = none) := by
  refine ⟨?_, validateLLMResponse_error_eq_spec parsed words,
    validateLLMResponse_valid_iff_error_none parsed words⟩
  rw [validateLLMResponse_valid_iff]
  constructor
  · rintro ⟨bs, h1, h2, h3, h4⟩
    exact ⟨bs, h1, h2, (checkBlocksFrom_eq_none_iff bs 0 _).mp h3,
      (checkOverlapFrom_eq_none_iff _ 1).mp h4⟩
  · rintro ⟨bs, h1, h2, h3, h4⟩
    exact ⟨bs, h1, h2, (checkBlocksFrom_eq_none_iff bs 0 _).mpr h3,
      (checkOverlapFrom_eq_none_iff _ 1).mpr h4⟩

/-- The store decision of the best-result update, as the claim states
it: always store when nothing is stored yet, otherwise store exactly when
the new violation count is strictly smaller. -/
def storedDecision (best : Option BestR) (v : List Violation) : Bool :=
  match best with
  | none => true
  | some b => decide (v.length < b.viol.length)

/-- Consistency of a run's per-attempt records with the best-tracking
policy: replaying the records, every structurally valid attempt's
`stored` flag equals the store decision against the best accumulated so
far. -/
def recsConsistentAux : Option BestR → List ARec → Bool
  | _, [] => true
  | best, .errA _ _ :: t => recsConsistentAux best t
  | best, .okA _ p v st :: t =>
    (st == storedDecision best v) &&
      recsConsistentAux (if st then some ⟨p, v⟩ else best) t

/-- Validity of one attempt record: a structurally valid attempt's
parsed response passes `validateLLMResponse`. -/
def recValid (words : List Word) : ARec → Bool
  | .okA _ p _ _ => (validateLLMResponse p words).valid
  | .errA _ _ => true

/-- All records of a run carry structurally valid parsed responses. -/
def recsAllValid (words : List Word) (recs : List ARec) : Bool :=
  recs.all (recValid words)

/-- The best-result update implements the store decision. -/
theorem updateBest_spec (best : Option BestR) (p : Parsed) (v : List Violation) :
    (updateBest best p v).2 = storedDecision best v ∧
    (updateBest best p v).1 =
      (if (updateBest best p v).2 then some ⟨p, v⟩ else best) := by
  cases best with
  | none => exact ⟨rfl, rfl⟩
  | some b0 =>
    by_cases h : v.length < b0.viol.length
    · constructor
      · simp [updateBest, storedDecision, h]
      · simp [updateBest, h]
    · constructor
      · simp [updateBest, storedDecision, h]
      · simp [updateBest, h]

/-- Loop lemma: the records of any run segment are consistent with the
best-tracking policy, starting from the segment's incoming best. -/
theorem loopRun_recs_consistent (gen : Nat → GenOutcome) (words : List Word)
    (maxR : Nat) :
    ∀ (fuel n : Nat) (best : Option BestR) (lastMsg : String),
      recsConsistentAux best (loopRun gen words maxR n fuel best lastMsg).recs = true := by
  intro fuel
  induction fuel with
  | zero => intro n best lastMsg; rw [loopRun_zero]; rfl
  | succ fuel ih =>
    intro n best lastMsg
    cases hbc : bodyCore words (gen n) with
    | thrown m =>
      cases hnr : nonRetryable m with
      | true =>
        rw [loopRun_thrown_abort gen words maxR n fuel best lastMsg m hbc hnr]
        rfl
      | false =>
        rw [loopRun_thrown_retry gen words maxR n fuel best lastMsg m hbc hnr]
        exact ih (n + 1) best m
    | validThrown p v m =>
      have hub := updateBest_spec best p v
      have h2 : (if (updateBest best p v).2 then some (⟨p, v⟩ : BestR) else best) =
          (updateBest best p v).1 := hub.2.symm
      cases hnr : nonRetryable m with
      | true =>
        rw [loopRun_vthrown_abort gen words maxR n fuel best lastMsg p v m hbc hnr]
        simp [recsConsistentAux, hub.1]
      | false =>
        rw [loopRun_vthrown_retry gen words maxR n fuel best lastMsg p v m hbc hnr]
        show (((updateBest best p v).2 == storedDecision best v) &&
          recsConsistentAux (if (updateBest best p v).2 then some ⟨p, v⟩ else best)
            (loopRun gen words maxR (n + 1) fuel (updateBest best p v).1 m).recs) = true
        rw [h2, hub.1]
        simp [ih (n + 1) (updateBest best p v).1 m]
    | validAccept p v =>
      have hub := updateBest_spec best p v
      rw [loopRun_accept gen words maxR n fuel best lastMsg p v hbc]
      simp [recsConsistentAux, hub.1]

/-- Loop lemma: every structurally valid record of a run segment carries
a valid parsed response. -/
theorem loopRun_recs_valid (gen : Nat → GenOutcome) (words : List Word)
    (maxR : Nat) :
    ∀ (fuel n : Nat) (best : Option BestR) (lastMsg : String),
      recsAllValid words (loopRun gen words maxR n fuel best lastMsg).recs = true := by
  intro fuel
  induction fuel with
  | zero => intro n best lastMsg; rw [loopRun_zero]; rfl
  | succ fuel ih =>
    intro n best lastMsg
    cases hbc : bodyCore words (gen n) with
    | thrown m =>
      cases hnr : nonRetryable m with
      | true =>
        rw [loopRun_thrown_abort gen words maxR n fuel best lastMsg m hbc hnr]
        rfl
      | false =>
        rw [loopRun_thrown_retry gen words maxR n fuel best lastMsg m hbc hnr]
        show recsAllValid words (ARec.errA n m :: _) = true
        simp only [recsAllValid, List.all_cons, recValid, Bool.true_and]
        exact ih (n + 1) best m
    | validThrown p v m =>
      have hva := bodyCore_validThrown_valid words (gen n) p v m hbc
      cases hnr : nonRetryable m with
      | true =>
        rw [loopRun_vthrown_abort gen words maxR n fuel best lastMsg p v m hbc hnr]
        simp [recsAllValid, recValid, hva]
      | false =>
        rw [loopRun_vthrown_retry gen words maxR n fuel best lastMsg p v m hbc hnr]
        show recsAllValid words (ARec.okA n p v _ :: _) = true
        simp only [recsAllValid, List.all_cons, recValid, hva, Bool.true_and]
        exact ih (n + 1) (updateBest best p v).1 m
    | validAccept p v =>
      have hva := bodyCore_validAccept_valid words (gen n) p v hbc
      rw [loopRun_accept gen words maxR n fuel best lastMsg p v hbc]
      simp [recsAllValid, recValid, hva]

/-- C5: across the orchestrator's attempts, only structurally valid
results are ever recorded as stored; replaying the run's records, the
first structurally valid result is always stored (decision `true` against
an empty best), and a later one is stored iff its semantic violation
count is strictly smaller than the stored best's. -/
theorem c5_best_tracking (apiKey : Option String) (gen : Nat → GenOutcome)
    (words : List Word) :
    (recsAllValid words (handlePositionBasedPartitioning apiKey gen words).recs = true ∧
     recsConsistentAux none (handlePositionBasedPartitioning apiKey gen words).recs = true) ∧
    (∀ (p : Parsed) (v : List Violation), updateBest none p v = (some ⟨p, v⟩, true)) ∧
    (∀ (b : BestR) (p : Parsed) (v : List Violation),
      (updateBest (some b) p v).2 = decide (v.length < b.viol.length) ∧
      (updateBest (some b) p v).1 =
        (if v.length < b.viol.length then some ⟨p, v⟩ else some b)) := by
  refine ⟨?_, ?_, ?_⟩
  · unfold handlePositionBasedPartitioning
    split_ifs with hk
    · exact ⟨loopRun_recs_valid gen words getMaxRetries getMaxRetries 1 none "",
        loopRun_recs_consistent gen words getMaxRetries getMaxRetries 1 none ""⟩
    · exact ⟨rfl, rfl⟩
  · intro p v
    rfl
  · intro b p v
    constructor
    · by_cases h : v.length < b.viol.length <;> simp [updateBest, h]
    · by_cases h : v.length < b.viol.length <;> simp [updateBest, h]

/-- Generator for the C4 counterexample: attempts 1 and 2 fail to parse,
attempt 3 is rejected with HTTP 401. -/
def c4Gen : Nat → GenOutcome :=
  fun n => if n = 3 then .fetchError 401 "boom" else .parseError "x"

/-- C4 counterexample: a run in which every attempt fails on transport or
parsing (so no attempt ever produces a structurally valid result, and all
three generator calls happen), yet the thrown message is the 401 abort
message, not `Failed after 3 attempts: ...` as the claim states. -/
theorem c4_counterexample :
    (handlePositionBasedPartitioning (some "key") c4Gen oneWord).result =
      Except.error "Invalid API key: boom" ∧
    (handlePositionBasedPartitioning (some "key") c4Gen oneWord).events.countP
      isGenCall = 3 ∧
    ∀ lastMsg : String,
      "Invalid API key: boom" ≠ failedAfterMsg getMaxRetries lastMsg := by
  refine ⟨by rfl, by rfl, ?_⟩
  intro lastMsg hcontra
  have h1 : startsWithStr "Invalid API key: boom" "Failed after" = false := rfl
  have h2 : startsWithStr (failedAfterMsg getMaxRetries lastMsg) "Failed after" = true := by
    cases lastMsg with
    | mk l => rfl
  rw [← hcontra, h1] at h2
  exact Bool.noConfusion h2

/-- Exhaustion lemma: when the stored best is empty and every attempt of
the segment fails retryably without a valid result, the loop ends with
the exhaustion error carrying the final attempt's message. -/
theorem loopRun_all_hardFail (gen : Nat → GenOutcome) (words : List Word)
    (maxR : Nat) :
    ∀ (fuel n : Nat) (lastMsg : String),
      0 < fuel →
      (∀ j, n ≤ j → j < n + fuel → hardFailB words (gen j) = true) →
      (loopRun gen words maxR n fuel none lastMsg).result =
        Except.error (failedAfterMsg maxR (thrownMsgOf words (gen (n + fuel - 1)))) := by
  intro fuel
  induction fuel with
  | zero =>
    intro n lastMsg h0
    exact absurd h0 (by omega)
  | succ fuel ih =>
    intro n lastMsg _ hall
    have hn := hall n (le_refl n) (by omega)
    obtain ⟨m, hg, hnr⟩ : ∃ m, bodyCore words (gen n) = .thrown m ∧
        nonRetryable m = false := by
      unfold hardFailB at hn
      cases hbc : bodyCore words (gen n) with
      | thrown m2 =>
        rw [hbc] at hn
        exact ⟨m2, rfl, by simpa using hn⟩
      | validThrown p v m2 => rw [hbc] at hn; simp at hn
      | validAccept p v => rw [hbc] at hn; simp at hn
    cases fuel with
    | zero =>
      rw [loopRun_thrown_retry gen words maxR n 0 none lastMsg m hg hnr]
      show (loopRun gen words maxR (n + 1) 0 none m).result = _
      rw [loopRun_zero]
      have hmsg : thrownMsgOf words (gen n) = m := by
        unfold thrownMsgOf
        rw [hg]
      show finishRun maxR none m = _
      simp only [finishRun, Nat.add_sub_cancel, hmsg]
    | succ fuel2 =>
      rw [loopRun_thrown_retry gen words maxR n (fuel2 + 1) none lastMsg m hg hnr]
      show (loopRun gen words maxR (n + 1) (fuel2 + 1) none m).result = _
      have hih := ih (n + 1) m (by omega)
        (fun j hj1 hj2 => hall j (by omega) (by omega))
      have hidx : n + 1 + (fuel2 + 1) - 1 = n + (fuel2 + 1 + 1) - 1 := by omega
      rw [hih, hidx]

/-- Degraded-acceptance lemma: if no attempt of the segment aborts, and
either a best is already stored or some attempt of the segment produces a
structurally valid result, the loop returns a result. -/
theorem loopRun_valid_somewhere (gen : Nat → GenOutcome) (words : List Word)
    (maxR : Nat) :
    ∀ (fuel n : Nat) (best : Option BestR) (lastMsg : String),
      (∀ j, n ≤ j → j < n + fuel → notAbortB words (gen j) = true) →
      ((∃ b, best = some b) ∨
        (∃ j, n ≤ j ∧ j < n + fuel ∧ producesValidB words (gen j) = true)) →
      ∃ p, (loopRun gen words maxR n fuel best lastMsg).result = Except.ok p := by
  intro fuel
  induction fuel with
  | zero =>
    intro n best lastMsg _ hdisj
    rcases hdisj with ⟨b, hb⟩ | ⟨j, hj1, hj2, _⟩
    · subst hb
      exact ⟨b.parsed, by rw [loopRun_zero]; rfl⟩
    · exact absurd hj2 (by omega)
  | succ fuel ih =>
    intro n best lastMsg hnab hdisj
    have hn := hnab n (le_refl n) (by omega)
    cases hbc : bodyCore words (gen n) with
    | thrown m =>
      have hnr : nonRetryable m = false := by
        unfold notAbortB at hn
        rw [hbc] at hn
        simpa using hn
      rw [loopRun_thrown_retry gen words maxR n fuel best lastMsg m hbc hnr]
      show ∃ p, (loopRun gen words maxR (n + 1) fuel best m).result = Except.ok p
      apply ih (n + 1) best m
      · intro j hj1 hj2
        exact hnab j (by omega) (by omega)
      · rcases hdisj with hleft | ⟨j, hj1, hj2, hjv⟩
        · exact Or.inl hleft
        · have hjn : j ≠ n := by
            intro he
            subst he
            unfold producesValidB at hjv
            rw [hbc] at hjv
            simp at hjv
          exact Or.inr ⟨j, by omega, by omega, hjv⟩
    | validThrown p v m =>
      have hnr : nonRetryable m = false := by
        unfold notAbortB at hn
        rw [hbc] at hn
        simpa using hn
      rw [loopRun_vthrown_retry gen words maxR n fuel best lastMsg p v m hbc hnr]
      show ∃ q, (loopRun gen words maxR (n + 1) fuel (updateBest best p v).1 m).result =
        Except.ok q
      apply ih (n + 1) (updateBest best p v).1 m
      · intro j hj1 hj2
        exact hnab j (by omega) (by omega)
      · left
        cases best with
        | none => exact ⟨⟨p, v⟩, rfl⟩
        | some b0 =>
          by_cases h : v.length < b0.viol.length
          · exact ⟨⟨p, v⟩, by simp [updateBest, h]⟩
          · exact ⟨b0, by simp [updateBest, h]⟩
    | validAccept p v =>
      exact ⟨p, by rw [loopRun_accept gen words maxR n fuel best lastMsg p v hbc]⟩

/-- C4 as amended: when the API key is present and every attempt fails
retryably without a structurally valid result (non-authorization
transport, parsing, or structural failure — no 401), the orchestrator
throws `Failed after N attempts:` with the last attempt's message, `N`
the maximum attempt count; and when no attempt aborts and some attempt
produces a structurally valid result, it returns a result instead of
throwing. -/
theorem c4_amended (apiKey : Option String) (gen : Nat → GenOutcome)
    (words : List Word) :
    (keyPresent apiKey = true →
      (∀ j, 1 ≤ j → j ≤ getMaxRetries → hardFailB words (gen j) = true) →
      (handlePositionBasedPartitioning apiKey gen words).result =
        Except.error (failedAfterMsg getMaxRetries
          (thrownMsgOf words (gen getMaxRetries)))) ∧
    (keyPresent apiKey = true →
      (∀ j, 1 ≤ j → j ≤ getMaxRetries → notAbortB words (gen j) = true) →
      (∃ j, 1 ≤ j ∧ j ≤ getMaxRetries ∧ producesValidB words (gen j) = true) →
      ∃ p, (handlePositionBasedPartitioning apiKey gen words).result = Except.ok p) := by
  constructor
  · intro hk hall
    unfold handlePositionBasedPartitioning
    rw [if_pos hk]
    have hres := loopRun_all_hardFail gen words getMaxRetries getMaxRetries 1 ""
      (by decide) (fun j hj1 hj2 => hall j hj1 (by omega))
    have hidx : 1 + getMaxRetries - 1 = getMaxRetries := by omega
    rw [hidx] at hres
    exact hres
  · rintro hk hnab ⟨j, hj1, hj2, hjv⟩
    unfold handlePositionBasedPartitioning
    rw [if_pos hk]
    exact loopRun_valid_somewhere gen words getMaxRetries getMaxRetries 1 none ""
      (fun j2 hj21 hj22 => hnab j2 hj21 (by omega))
      (Or.inr ⟨j, hj1, by omega, hjv⟩)

/-- C4 witness: with every attempt failing to parse, the run throws the
exhaustion message built from the final attempt's parse error. -/
theorem c4_witness :
    (handlePositionBasedPartitioning (some "key") allParseGen oneWord).result =
      Except.error (failedAfterMsg getMaxRetries
        (thrownMsgOf oneWord (allParseGen getMaxRetries))) :=
  (c4_amended (some "key") allParseGen oneWord).1 (by decide)
    (fun j h1 h2 => by
      show hardFailB oneWord (GenOutcome.parseError "x") = true
      decide)

/-- A pattern occurs in any character list it prefixes. -/
theorem charsHaveSub_self_append (pat rest : List Char) :
    charsHaveSub pat (pat ++ rest) = true := by
  cases pat with
  | nil => cases rest <;> rfl
  | cons p pt =>
    simp only [List.cons_append, charsHaveSub]
    have h1 : List.isPrefixOf (p :: pt) (p :: (pt ++ rest)) = true :=
      List.isPrefixOf_iff_prefix.mpr (by simpa using List.prefix_append (p :: pt) rest)
    simp [h1]

/-- The 401 abort message always matches the non-retryable filter. -/
theorem nonRetryable_invalid_key (msg : String) :
    nonRetryable ("Invalid API key: " ++ msg) = true := by
  cases msg with
  | mk l =>
    show (charsHaveSub ("Invalid API key".data)
        ("Invalid API key".data ++ (": ".data ++ l)) || _) = true
    rw [charsHaveSub_self_append]
    rfl

/-- C7: a missing API key aborts the whole run before any generator
call, and an HTTP 401 on attempt `k` (after `k-1` retryable failures)
aborts at once with the authorization error: exactly `k` generator calls
happen and exactly `k-1` sleeps — the remaining attempt budget and its
delays are never consumed. -/
theorem loopRun_auth_abort (gen : Nat → GenOutcome) (words : List Word)
    (maxR : Nat) :
    ∀ (fuel n : Nat) (best : Option BestR) (lastMsg : String) (k : Nat) (msg : String),
      n ≤ k → k < n + fuel → k ≤ maxR →
      (∀ j, n ≤ j → j < k → retryFailB words (gen j) = true) →
      gen k = .fetchError 401 msg →
      (loopRun gen words maxR n fuel best lastMsg).result =
          Except.error ("Invalid API key: " ++ msg) ∧
        (loopRun gen words maxR n fuel best lastMsg).events.countP isGenCall =
          k - n + 1 ∧
        (loopRun gen words maxR n fuel best lastMsg).events.countP isSleepEv =
          k - n := by
  intro fuel
  induction fuel with
  | zero =>
    intro n best lastMsg k msg h1 h2
    exact absurd h2 (by omega)
  | succ fuel ih =>
    intro n best lastMsg k msg h1 h2 h3 hall hk
    by_cases hkn : k = n
    · subst hkn
      have hbc : bodyCore words (gen k) = .thrown ("Invalid API key: " ++ msg) := by
        rw [hk]
        rfl
      have hnr := nonRetryable_invalid_key msg
      rw [loopRun_thrown_abort gen words maxR k fuel best lastMsg _ hbc hnr]
      refine ⟨rfl, ?_, ?_⟩
      · simp [List.countP_cons, isGenCall]
      · simp [List.countP_cons, isSleepEv]
    · have hnk : n < k := by omega
      have hlt : n < maxR := by omega
      have hrf := hall n (le_refl n) hnk
      unfold retryFailB at hrf
      cases hbc : bodyCore words (gen n) with
      | thrown m =>
        rw [hbc] at hrf
        have hnr : nonRetryable m = false := by simpa using hrf
        rw [loopRun_thrown_retry gen words maxR n fuel best lastMsg m hbc hnr,
          if_pos hlt]
        have hih := ih (n + 1) best m k msg (by omega) (by omega) h3
          (fun j hj1 hj2 => hall j (by omega) hj2) hk
        refine ⟨hih.1, ?_, ?_⟩
        · show (List.countP isGenCall
            ([Ev.genCall n, Ev.sleepEv (sleepDelay (getRetryConfig n))] ++
              (loopRun gen words maxR (n + 1) fuel best m).events)) = k - n + 1
          rw [List.countP_append, hih.2.1]
          simp [List.countP_cons, isGenCall]
          omega
        · show (List.countP isSleepEv
            ([Ev.genCall n, Ev.sleepEv (sleepDelay (getRetryConfig n))] ++
              (loopRun gen words maxR (n + 1) fuel best m).events)) = k - n
          rw [List.countP_append, hih.2.2]
          simp [List.countP_cons, isSleepEv]
          omega
      | validThrown p v m =>
        rw [hbc] at hrf
        have hnr : nonRetryable m = false := by simpa using hrf
        rw [loopRun_vthrown_retry gen words maxR n fuel best lastMsg p v m hbc hnr,
          if_pos hlt]
        have hih := ih (n + 1) (updateBest best p v).1 m k msg (by omega) (by omega) h3
          (fun j hj1 hj2 => hall j (by omega) hj2) hk
        refine ⟨hih.1, ?_, ?_⟩
        · show (List.countP isGenCall
            ([Ev.genCall n, Ev.sleepEv (sleepDelay (getRetryConfig n))] ++
              (loopRun gen words maxR (n + 1) fuel (updateBest best p v).1 m).events)) =
            k - n + 1
          rw [List.countP_append, hih.2.1]
          simp [List.countP_cons, isGenCall]
          omega
        · show (List.countP isSleepEv
            ([Ev.genCall n, Ev.sleepEv (sleepDelay (getRetryConfig n))] ++
              (loopRun gen words maxR (n + 1) fuel (updateBest best p v).1 m).events)) =
            k - n
          rw [List.countP_append, hih.2.2]
          simp [List.countP_cons, isSleepEv]
          omega
      | validAccept p v =>
        rw [hbc] at hrf
        simp at hrf

/-- C7: a missing API key throws at once with no generator calls and no
sleeps; an authorization rejection (HTTP 401) on attempt `k`, with all
earlier attempts failing retryably, throws `Invalid API key: ...` at
once: exactly `k` generator calls and `k - 1` sleeps happen regardless of
remaining attempt budget. -/
theorem c7_fatal_short_circuit :
    (∀ (apiKey : Option String) (gen : Nat → GenOutcome) (words : List Word),
      keyPresent apiKey = false →
      handlePositionBasedPartitioning apiKey gen words =
        ⟨Except.error apiKeyMissingMsg, [], []⟩) ∧
    (∀ (apiKey : Option String) (gen : Nat → GenOutcome) (words : List Word)
      (k : Nat) (msg : String),
      keyPresent apiKey = true → 1 ≤ k → k ≤ getMaxRetries →
      (∀ j, 1 ≤ j → j < k → retryFailB words (gen j) = true) →
      gen k = .fetchError 401 msg →
      (handlePositionBasedPartitioning apiKey gen words).result =
          Except.error ("Invalid API key: " ++ msg) ∧
        (handlePositionBasedPartitioning apiKey gen words).events.countP isGenCall = k ∧
        (handlePositionBasedPartitioning apiKey gen words).events.countP isSleepEv =
          k - 1) := by
  constructor
  · intro apiKey gen words hk
    unfold handlePositionBasedPartitioning
    rw [hk]
    rfl
  · intro apiKey gen words k msg hk h1 h2 hall hk401
    unfold handlePositionBasedPartitioning
    rw [if_pos hk]
    have h := loopRun_auth_abort gen words getMaxRetries getMaxRetries 1 none "" k msg
      h1 (by omega) h2 hall hk401
    have hc1 : k - 1 + 1 = k := by omega
    rw [hc1] at h
    exact h

/-- Generator for the C7 witness: attempt 1 fails to parse, attempt 2 is
rejected with HTTP 401. -/
def auth2Gen : Nat → GenOutcome :=
  fun n => if n = 1 then .parseError "x" else .fetchError 401 "y"

/-- C7 witness: with a key present and a 401 on attempt 2, the run throws
the authorization error after exactly 2 generator calls and 1 sleep. -/
theorem c7_witness :
    (handlePositionBasedPartitioning (some "key") auth2Gen oneWord).result =
        Except.error ("Invalid API key: " ++ "y") ∧
      (handlePositionBasedPartitioning (some "key") auth2Gen oneWord).events.countP
        isGenCall = 2 ∧
      (handlePositionBasedPartitioning (some "key") auth2Gen oneWord).events.countP
        isSleepEv = 2 - 1 :=
  c7_fatal_short_circuit.2 (some "key") auth2Gen oneWord 2 "y" (by decide) (by decide)
    (by decide)
    (by
      intro j hj1 hj2
      have hj : j = 1 := by omega
      subst hj
      show retryFailB oneWord (GenOutcome.parseError "x") = true
      decide)
    (by rfl)

/-- A small heap of JS arrays: the block arrays and word arrays reachable
in one request.  References are indices; `Array.prototype.slice` /
spread-copy allocate a fresh reference, `Array.prototype.sort` mutates
the reference it is called on.  This models the aliasing the frame claim
is about. -/
structure JSHeap where
  barr : List (List Block)
  warr : List (List Word)
deriving Repr

/-- Dereference a block-array reference. -/
def getB (h : JSHeap) (r : Nat) : List Block := h.barr.getD r []

/-- Dereference a word-array reference. -/
def getWd (h : JSHeap) (r : Nat) : List Word := h.warr.getD r []

/-- Allocate a fresh block array (JS `slice()` / `[...]` copy). -/
def allocB (h : JSHeap) (v : List Block) : JSHeap × Nat :=
  (⟨h.barr ++ [v], h.warr⟩, h.barr.length)

/-- Allocate a fresh word array. -/
def allocW (h : JSHeap) (v : List Word) : JSHeap × Nat :=
  (⟨h.barr, h.warr ++ [v]⟩, h.warr.length)

/-- In-place update of a block-array reference (JS `sort()` receiver). -/
def setB (h : JSHeap) (r : Nat) (v : List Block) : JSHeap :=
  ⟨h.barr.set r v, h.warr⟩

/-- In-place update of a word-array reference. -/
def setW (h : JSHeap) (r : Nat) (v : List Word) : JSHeap :=
  ⟨h.barr, h.warr.set r v⟩

/-- Heap extension: all previously allocated references keep their
values (new allocations and mutations touch only fresh references). -/
structure HeapExt (h h2 : JSHeap) : Prop where
  blen : h.barr.length ≤ h2.barr.length
  wlen : h.warr.length ≤ h2.warr.length
  bpres : ∀ r, r < h.barr.length → getB h2 r = getB h r
  wpres : ∀ r, r < h.warr.length → getWd h2 r = getWd h r

/-- Heap extension is reflexive. -/
theorem heapExt_refl (h : JSHeap) : HeapExt h h :=
  ⟨le_refl _, le_refl _, fun _ _ => rfl, fun _ _ => rfl⟩

/-- Heap extension is transitive. -/
theorem heapExt_trans {h1 h2 h3 : JSHeap} (a : HeapExt h1 h2) (b : HeapExt h2 h3) :
    HeapExt h1 h3 :=
  ⟨le_trans a.blen b.blen, le_trans a.wlen b.wlen,
   fun r hr => (b.bpres r (lt_of_lt_of_le hr a.blen)).trans (a.bpres r hr),
   fun r hr => (b.wpres r (lt_of_lt_of_le hr a.wlen)).trans (a.wpres r hr)⟩

/-- Allocating a block array preserves existing references. -/
theorem heapExt_allocB (h : JSHeap) (v : List Block) : HeapExt h (allocB h v).1 := by
  refine ⟨by simp [allocB], le_refl _, ?_, fun r hr => rfl⟩
  intro r hr
  simp only [allocB, getB, List.getD_eq_getElem?_getD]
  simp [List.getElem?_append, hr]

/-- Allocating a word array preserves existing references. -/
theorem heapExt_allocW (h : JSHeap) (v : List Word) : HeapExt h (allocW h v).1 := by
  refine ⟨le_refl _, by simp [allocW], fun r hr => rfl, ?_⟩
  intro r hr
  simp only [allocW, getWd, List.getD_eq_getElem?_getD]
  simp [List.getElem?_append, hr]

/-- Mutating a reference at or beyond the original heap's block count
preserves the original references. -/
theorem heapExt_setB_fresh {h h2 : JSHeap} (hext : HeapExt h h2) (r : Nat)
    (hr : h.barr.length ≤ r) (v : List Block) : HeapExt h (setB h2 r v) := by
  refine ⟨?_, hext.wlen, ?_, hext.wpres⟩
  · calc h.barr.length ≤ h2.barr.length := hext.blen
      _ = (setB h2 r v).barr.length := by simp [setB]
  · intro r2 hr2
    have hne : r ≠ r2 := by omega
    have hpres := hext.bpres r2 hr2
    simp only [setB, getB, List.getD_eq_getElem?_getD] at hpres ⊢
    rw [List.getElem?_set_ne hne]
    exact hpres

/-- Mutating a reference at or beyond the original heap's word count
preserves the original references. -/
theorem heapExt_setW_fresh {h h2 : JSHeap} (hext : HeapExt h h2) (r : Nat)
    (hr : h.warr.length ≤ r) (v : List Word) : HeapExt h (setW h2 r v) := by
  refine ⟨hext.blen, ?_, hext.bpres, ?_⟩
  · calc h.warr.length ≤ h2.warr.length := hext.wlen
      _ = (setW h2 r v).warr.length := by simp [setW]
  · intro r2 hr2
    have hne : r ≠ r2 := by omega
    have hpres := hext.wpres r2 hr2
    simp only [setW, getWd, List.getD_eq_getElem?_getD] at hpres ⊢
    rw [List.getElem?_set_ne hne]
    exact hpres

/-- The heap effect of `validateLLMResponse`: nothing until the per-block
checks pass, then `[...parsed.blocks]` (a fresh copy) is sorted in place.
The caller's arrays are never the receiver of the sort. -/
def validateLLMResponseHeap (h : JSHeap) (rb rw : Nat) : JSHeap :=
  if getB h rb = [] then h
  else
    match checkBlocksFrom 0 (getB h rb) (cValues (getWd h rw)) with
    | some _ => h
    | none =>
      setB (allocB h (getB h rb)).1 (allocB h (getB h rb)).2
        (sortByStart (getB (allocB h (getB h rb)).1 (allocB h (getB h rb)).2))

/-- Heap-level `validateLLMResponse`: the heap effect together with the
verdict on the dereferenced arrays. -/
def validateLLMResponseH (h : JSHeap) (rb rw : Nat) : JSHeap × VResult :=
  (validateLLMResponseHeap h rb rw,
   validateLLMResponse ⟨some (getB h rb)⟩ (getWd h rw))

/-- The heap effect of `validateBlockCoverage`: `blocks.slice()` sorted
in place, then `words.slice()` sorted in place — both receivers fresh. -/
def validateBlockCoverageHeap (h : JSHeap) (rb rw : Nat) : JSHeap :=
  if getB h rb = [] then h
  else
    let h1 := setB (allocB h (getB h rb)).1 (allocB h (getB h rb)).2
      (sortByStart (getB (allocB h (getB h rb)).1 (allocB h (getB h rb)).2))
    setW (allocW h1 (getWd h1 rw)).1 (allocW h1 (getWd h1 rw)).2
      (sortWordsByC (getWd (allocW h1 (getWd h1 rw)).1 (allocW h1 (getWd h1 rw)).2))

/-- Heap-level `validateBlockCoverage`. -/
def validateBlockCoverageH (h : JSHeap) (rb rw : Nat) : JSHeap × List String :=
  (validateBlockCoverageHeap h rb rw,
   validateBlockCoverage (getB h rb) (getWd h rw))

/-- Heap-level `validateSemantics`: pure reads, no heap effect (the
checkers only build fresh strings and lists). -/
def validateSemanticsH (h : JSHeap) (rb rw : Nat) : JSHeap × SemResult :=
  (h, validateSemantics (getB h rb) (getWd h rw))

/-- `validateLLMResponse` preserves every pre-existing reference. -/
theorem validateLLMResponseHeap_ext (h : JSHeap) (rb rw : Nat) :
    HeapExt h (validateLLMResponseHeap h rb rw) := by
  unfold validateLLMResponseHeap
  split_ifs with hbe
  · exact heapExt_refl h
  · cases hcb : checkBlocksFrom 0 (getB h rb) (cValues (getWd h rw)) with
    | some m => exact heapExt_refl h
    | none =>
      exact heapExt_setB_fresh (heapExt_allocB h (getB h rb)) _ (le_refl _) _

/-- `validateBlockCoverage` preserves every pre-existing reference. -/
theorem validateBlockCoverageHeap_ext (h : JSHeap) (rb rw : Nat) :
    HeapExt h (validateBlockCoverageHeap h rb rw) := by
  unfold validateBlockCoverageHeap
  split_ifs with hbe
  · exact heapExt_refl h
  · have e1 : HeapExt h (setB (allocB h (getB h rb)).1 (allocB h (getB h rb)).2
        (sortByStart (getB (allocB h (getB h rb)).1 (allocB h (getB h rb)).2))) :=
      heapExt_setB_fresh (heapExt_allocB h (getB h rb)) _ (le_refl _) _
    refine heapExt_setW_fresh (heapExt_trans e1 (heapExt_allocW _ _)) _ ?_ _
    exact le_trans e1.wlen (le_refl _)

/-- The heap effect of one full attempt of the orchestrator: the fresh
converted blocks array is stored in the (fresh) parsed object, then the
validator, coverage auditor and semantic checker run on it. -/
def attemptHeapBlocks (h : JSHeap) (rw : Nat) (obs : Option (List Block)) : JSHeap :=
  match obs with
  | none => h
  | some bs =>
    if (validateLLMResponse ⟨some bs⟩ (getWd h rw)).valid then
      validateBlockCoverageHeap
        (validateLLMResponseHeap (allocB h bs).1 (allocB h bs).2 rw)
        (allocB h bs).2 rw
    else validateLLMResponseHeap (allocB h bs).1 (allocB h bs).2 rw

/-- The heap effect of one full attempt of the orchestrator: dispatch on
the generator outcome. -/
def attemptHeap (h : JSHeap) (rw : Nat) (g : GenOutcome) : JSHeap :=
  match g with
  | .parsed rp => attemptHeapBlocks h rw (convertParsed (getWd h rw) rp).blocks
  | _ => h

/-- Processing a converted blocks array preserves every pre-existing
reference. -/
theorem attemptHeapBlocks_ext (h : JSHeap) (rw : Nat) (obs : Option (List Block)) :
    HeapExt h (attemptHeapBlocks h rw obs) := by
  cases obs with
  | none => exact heapExt_refl h
  | some bs =>
    simp only [attemptHeapBlocks]
    have e1 : HeapExt h (allocB h bs).1 := heapExt_allocB h bs
    have e2 := validateLLMResponseHeap_ext (allocB h bs).1 (allocB h bs).2 rw
    split_ifs with hv
    · exact heapExt_trans (heapExt_trans e1 e2)
        (validateBlockCoverageHeap_ext _ (allocB h bs).2 rw)
    · exact heapExt_trans e1 e2

/-- One attempt preserves every pre-existing reference. -/
theorem attemptHeap_ext (h : JSHeap) (rw : Nat) (g : GenOutcome) :
    HeapExt h (attemptHeap h rw g) := by
  cases g with
  | fetchError status msg => exact heapExt_refl h
  | parseError msg => exact heapExt_refl h
  | parsed rp => exact attemptHeapBlocks_ext h rw (convertParsed (getWd h rw) rp).blocks

/-- The heap trace of a whole `handlePositionBasedPartitioning` run. -/
def runHeap (gen : Nat → GenOutcome) (rw : Nat) : Nat → Nat → JSHeap → JSHeap
  | _, 0, h => h
  | n, fuel + 1, h =>
    match bodyCore (getWd h rw) (gen n) with
    | .validAccept _ _ => attemptHeap h rw (gen n)
    | .thrown m =>
      if nonRetryable m then attemptHeap h rw (gen n)
      else runHeap gen rw (n + 1) fuel (attemptHeap h rw (gen n))
    | .validThrown _ _ m =>
      if nonRetryable m then attemptHeap h rw (gen n)
      else runHeap gen rw (n + 1) fuel (attemptHeap h rw (gen n))

/-- A whole run preserves every pre-existing reference. -/
theorem runHeap_ext (gen : Nat → GenOutcome) (rw : Nat) :
    ∀ (fuel n : Nat) (h : JSHeap), HeapExt h (runHeap gen rw n fuel h) := by
  intro fuel
  induction fuel with
  | zero => intro n h; exact heapExt_refl h
  | succ fuel ih =>
    intro n h
    have e1 := attemptHeap_ext h rw (gen n)
    unfold runHeap
    split
    · exact e1
    · split_ifs
      · exact e1
      · exact heapExt_trans e1 (ih (n + 1) _)
    · split_ifs
      · exact e1
      · exact heapExt_trans e1 (ih (n + 1) _)

/-- C9: no Core operation mutates the caller's arrays — the heap-level
validator, coverage auditor and semantic checker leave the caller's
word-array and block-array references unchanged (sorting happens on
freshly allocated copies), and a whole orchestrator run leaves the
caller's references unchanged. -/
theorem c9_core_no_mutation (h : JSHeap) (rb rw : Nat)
    (hrb : rb < h.barr.length) (hrw : rw < h.warr.length) :
    (getWd (validateLLMResponseH h rb rw).1 rw = getWd h rw ∧
     getB (validateLLMResponseH h rb rw).1 rb = getB h rb) ∧
    (getWd (validateBlockCoverageH h rb rw).1 rw = getWd h rw ∧
     getB (validateBlockCoverageH h rb rw).1 rb = getB h rb) ∧
    ((validateSemanticsH h rb rw).1 = h) ∧
    (∀ (gen : Nat → GenOutcome) (n fuel : Nat),
      getWd (runHeap gen rw n fuel h) rw = getWd h rw ∧
      getB (runHeap gen rw n fuel h) rb = getB h rb) := by
  refine ⟨⟨?_, ?_⟩, ⟨?_, ?_⟩, rfl, ?_⟩
  · exact (validateLLMResponseHeap_ext h rb rw).wpres rw hrw
  · exact (validateLLMResponseHeap_ext h rb rw).bpres rb hrb
  · exact (validateBlockCoverageHeap_ext h rb rw).wpres rw hrw
  · exact (validateBlockCoverageHeap_ext h rb rw).bpres rb hrb
  · intro gen n fuel
    exact ⟨(runHeap_ext gen rw fuel n h).wpres rw hrw,
      (runHeap_ext gen rw fuel n h).bpres rb hrb⟩

/-- Concrete heap for the C9 witness: one block array, one word array. -/
def c9Heap : JSHeap := ⟨[[⟨some 0, some 0, "a", some "t"⟩]], [[⟨0, "a"⟩]]⟩

/-- C9 witness: the preservation facts at the concrete heap. -/
theorem c9_witness :
    (getWd (validateLLMResponseH c9Heap 0 0).1 0 = getWd c9Heap 0 ∧
     getB (validateLLMResponseH c9Heap 0 0).1 0 = getB c9Heap 0) ∧
    (getWd (validateBlockCoverageH c9Heap 0 0).1 0 = getWd c9Heap 0 ∧
     getB (validateBlockCoverageH c9Heap 0 0).1 0 = getB c9Heap 0) ∧
    ((validateSemanticsH c9Heap 0 0).1 = c9Heap) ∧
    (∀ (gen : Nat → GenOutcome) (n fuel : Nat),
      getWd (runHeap gen 0 n fuel c9Heap) 0 = getWd c9Heap 0 ∧
      getB (runHeap gen 0 n fuel c9Heap) 0 = getB c9Heap 0) :=
  c9_core_no_mutation c9Heap 0 0 (by decide) (by decide)

/-- Concrete words for the C8 witness: sparse positions 5 and 9. -/
def c8Words : List Word := [⟨5, "Le"⟩, ⟨9, "chat"⟩]

/-- Concrete raw block for the C8 witness: compact indices 0 and 1. -/
def c8Raw : RawBlock := ⟨some 0, some 1, none, none, none, some "t", none⟩

/-- C8 witness: expanding indices 0 and 1 through the table rebuilt from
`c8Words` yields the original sparse positions 5 and 9. -/
theorem c8_witness :
    (convertBlock c8Words c8Raw).start_c = some (c8Words.get ⟨0, by decide⟩).c ∧
    (convertBlock c8Words c8Raw).end_c = some (c8Words.get ⟨1, by decide⟩).c :=
  ⟨(c8_remap_round_trip c8Words 0 1 (by decide) (by decide) c8Raw rfl rfl).2.1,
   (c8_remap_round_trip c8Words 0 1 (by decide) (by decide) c8Raw rfl rfl).2.2⟩
